import Mathlib

/-!
# Flowbits rule option (`src/detect-flowbits.c`)

A shallow embedding of the flowbits keyword of the detection engine: the option
compiler `DetectFlowbitSetup` and the per-packet evaluator `DetectFlowbitMatch`.

Conventions of the embedding.

* A C string is a `List Char`; the characters from the first NUL on are not part of
  the string (`strlen`).
* Integer return codes are `Int` (`0`, `1`, `-1`).
* Pointers to flows are addresses (`Nat`) into a flow memory `FlowMem`; `NULL` is
  `none`.
* A function that mutates an object through a pointer returns the new object next to
  its C return value.
* The outcome of every allocating call is an input (`Alloc`), so that the `NULL`
  branches of the source are part of the model.
-/

set_option autoImplicit false

namespace DetectFlowbits

/-! ## Constants and types declared in headers -/

/-- Constants of `detect.h` that the file uses and whose values are not part of it:
the keyword id `DETECT_FLOWBITS` (also the kind tag of flowbit records and the
class of flowbit names) and the rule flag `SIG_FLAG_NOALERT`. -/
structure DetectConsts where
  DETECT_FLOWBITS : Nat
  SIG_FLAG_NOALERT : Nat
  deriving DecidableEq, Repr

/-- Modelled from the spec: the command codes `DETECT_FLOWBITS_CMD_*` of
`detect-flowbits.h` (the header is not among the sources). The spec lists the enum
`Set, Unset, Toggle, IsSet, IsNotSet, NoAlert`; `OTHER v` stands for a `uint8_t`
value that is none of the six. -/
inductive DetectFlowbitsCmd where
  | DETECT_FLOWBITS_CMD_SET
  | DETECT_FLOWBITS_CMD_TOGGLE
  | DETECT_FLOWBITS_CMD_UNSET
  | DETECT_FLOWBITS_CMD_ISNOTSET
  | DETECT_FLOWBITS_CMD_ISSET
  | DETECT_FLOWBITS_CMD_NOALERT
  | OTHER (v : Nat)
  deriving DecidableEq, Repr

open DetectFlowbitsCmd

/-- The instruction `DetectFlowbitsData` (fields `idx` and `cmd`, as the source
assigns them). -/
structure DetectFlowbitsData where
  idx : Nat
  cmd : DetectFlowbitsCmd
  deriving DecidableEq, Repr

/-- A match-chain node: `type` and `ctx` as the source assigns them (`ctx` is a
pointer, `none` when `NULL`). -/
structure SigMatch where
  type : Nat
  ctx : Option DetectFlowbitsData
  deriving DecidableEq, Repr

/-- The part of a rule the file touches: its `flags` and its match chain. -/
structure Signature where
  flags : Nat
  match_list : List SigMatch
  deriving DecidableEq, Repr

/-- A record of a flow's variable list, as the tests of the source read it:
`gv->type` and `gv->idx` (`gv->next` is the tail of the list). -/
structure GenericVar where
  type : Nat
  idx : Nat
  deriving DecidableEq, Repr

/-- A flow: `f->flowvar`, the head of its variable list. -/
structure Flow where
  flowvar : List GenericVar
  deriving DecidableEq, Repr

/-- A packet: `p->flow`, the address of its flow, or `none` for `NULL`. -/
structure Packet where
  flow : Option Nat
  deriving DecidableEq, Repr

/-- The flows in memory, by address. -/
abbrev FlowMem := Nat → Flow

/-- Store `f` at address `a`. -/
def FlowMem.write (mem : FlowMem) (a : Nat) (f : Flow) : FlowMem :=
  fun b => if b = a then f else mem b

/-- One entry of the name table. -/
structure VariableName where
  name : List Char
  type : Nat
  idx : Nat
  deriving DecidableEq, Repr

/-- The rule-set context: its name table and the counter of handed-out indices. -/
structure DetectEngineCtx where
  variable_names : List VariableName
  variable_names_idx : Nat
  deriving DecidableEq, Repr

/-- Outcome of the allocating calls of `DetectFlowbitSetup`, in the order of the
source; `true` when the call returns memory. -/
structure Alloc where
  get_substring_cmd : Bool
  get_substring_name : Bool
  malloc : Bool
  SigMatchAlloc : Bool
  deriving DecidableEq, Repr

/-- Every allocation succeeds. -/
def Alloc.succeeds (a : Alloc) : Bool :=
  a.get_substring_cmd && a.get_substring_name && a.malloc && a.SigMatchAlloc

/-! ## Collaborators outside the file -/

/-- Modelled from the spec: `VariableNameGetIdx` of `util-var-name.c` (not among the
sources). The name table maps (name, class) to an index; the first lookup of a key
increments the counter (indices start at 1, 0 is reserved) and inserts the mapping,
later lookups read it. -/
def VariableNameGetIdx (de_ctx : DetectEngineCtx) (name : List Char) (type : Nat) :
    Nat × DetectEngineCtx :=
  match de_ctx.variable_names.find? (fun e => e.name = name ∧ e.type = type) with
  | some e => (e.idx, de_ctx)
  | none =>
    let idx := de_ctx.variable_names_idx + 1
    (idx, { variable_names := de_ctx.variable_names ++ [⟨name, type, idx⟩],
            variable_names_idx := idx })

/-- Modelled from the spec: `DetectEngineCtxInit` (not among the sources), the fresh
rule-set context: an empty name table, no index handed out. -/
def DetectEngineCtxInit : DetectEngineCtx := ⟨[], 0⟩

/-- Modelled from the spec: `SigMatchAppend` of `detect-parse.c` (not among the
sources), the generic operation that appends a node to the owning rule's match
chain. The argument `m` of the source, the chain's current last node, is implied by
the chain. -/
def SigMatchAppend (s : Signature) (sm : SigMatch) : Signature :=
  { s with match_list := s.match_list ++ [sm] }

/-- Modelled from the spec: the lookup of `flow-bit.c` (not among the sources): is
there a record of the flowbits kind with index `idx` in the flow's store? -/
def FlowBitGet (c : DetectConsts) (f : Flow) (idx : Nat) : Bool :=
  f.flowvar.any (fun gv => gv.type = c.DETECT_FLOWBITS ∧ gv.idx = idx)

/-- Modelled from the spec: `FlowBitSet` of `flow-bit.c` (not among the sources):
insert a record for `idx` if absent. -/
def FlowBitSet (c : DetectConsts) (f : Flow) (idx : Nat) : Flow :=
  if FlowBitGet c f idx then f
  else { flowvar := f.flowvar ++ [⟨c.DETECT_FLOWBITS, idx⟩] }

/-- Modelled from the spec: `FlowBitUnset` of `flow-bit.c` (not among the sources):
remove the record for `idx` if present; afterwards the flag is absent. -/
def FlowBitUnset (c : DetectConsts) (f : Flow) (idx : Nat) : Flow :=
  { flowvar := f.flowvar.filter (fun gv => ¬ (gv.type = c.DETECT_FLOWBITS ∧ gv.idx = idx)) }

/-- Modelled from the spec: `FlowBitToggle` of `flow-bit.c` (not among the sources):
if present, remove it; if absent, insert it. -/
def FlowBitToggle (c : DetectConsts) (f : Flow) (idx : Nat) : Flow :=
  if FlowBitGet c f idx then FlowBitUnset c f idx else FlowBitSet c f idx

/-- Modelled from the spec: `FlowBitIsset` of `flow-bit.c` (not among the sources):
1 iff a record with `idx` exists in the flow's store. -/
def FlowBitIsset (c : DetectConsts) (f : Flow) (idx : Nat) : Int :=
  if FlowBitGet c f idx then 1 else 0

/-- Modelled from the spec: `FlowBitIsnotset` of `flow-bit.c` (not among the
sources): 1 iff no record with `idx` exists in the flow's store. -/
def FlowBitIsnotset (c : DetectConsts) (f : Flow) (idx : Nat) : Int :=
  if FlowBitGet c f idx then 0 else 1

/-! ## The tokenizer: `pcre_exec` on `PARSE_REGEX` -/

/-- The C library's `strlen`: the number of characters before the first NUL. -/
def strlen (s : List Char) : Nat :=
  (s.takeWhile (fun ch => ch ≠ Char.ofNat 0)).length

/-- Capacity of the offset vector, `#define MAX_SUBSTRINGS 30`. -/
def MAX_SUBSTRINGS : Nat := 30

/-- The library's code for "the pattern matches nowhere". -/
def PCRE_ERROR_NOMATCH : Int := -1

/-- The class `[a-z]` of `PARSE_REGEX`. -/
def isCmdChar (ch : Char) : Bool := ch.isLower

/-- What `.` of `PARSE_REGEX` matches: the pattern is compiled with `opts = 0`, so
every character but the line feed. -/
def isDotChar (ch : Char) : Bool := ch ≠ Char.ofNat 10

/-- The library call `pcre_exec(parse_regex, parse_regex_study, subject, length, 0, 0,
ov, MAX_SUBSTRINGS)` for `PARSE_REGEX = "([a-z]+)(?:,(.*))?"`, compiled with
`opts = 0`. The pattern is not anchored: the match starts at the first position
where `[a-z]+` can start, that is at the first lowercase letter; group 1 is the
greedy run of lowercase letters from there; the optional group is taken iff the next
character is a comma, and then group 2 is the greedy run of `.` after the comma.
Returns the return code (highest group set, plus one, or `PCRE_ERROR_NOMATCH`) and
the offset vector `ov` (start and end of the whole match, of group 1, of group 2). -/
def pcre_exec (subject : List Char) (length : Nat) : Int × List Nat :=
  let subj := subject.take length
  let start := (subj.takeWhile (fun ch => !isCmdChar ch)).length
  let word := ((subj.drop start).takeWhile isCmdChar).length
  if word = 0 then (PCRE_ERROR_NOMATCH, [])
  else
    match subj.drop (start + word) with
    | ch :: tail =>
      if ch = ',' then
        let name := (tail.takeWhile isDotChar).length
        (3, [start, start + word + 1 + name, start, start + word,
             start + word + 1, start + word + 1 + name])
      else (2, [start, start + word, start, start + word])
    | [] => (2, [start, start + word, start, start + word])

/-- The library call `pcre_get_substring(subject, ov, stringcount, stringnumber,
&str_ptr)`: a fresh copy of the characters between the two offsets of the group;
`none` stands for a negative result (the group number is not below `stringcount`,
or the copy could not be allocated). -/
def pcre_get_substring (mem_ok : Bool) (subject : List Char) (ov : List Nat)
    (stringcount stringnumber : Nat) : Option (List Char) :=
  if stringnumber ≥ stringcount then none
  else if !mem_ok then none
  else
    let b := ov.getD (2 * stringnumber) 0
    let e := ov.getD (2 * stringnumber + 1) 0
    some ((subject.drop b).take (e - b))

/-! ## The option compiler -/

/-- The keywords of the `strcmp` chain. -/
def kw_noalert : List Char := ['n', 'o', 'a', 'l', 'e', 'r', 't']
/-- The keyword `isset`. -/
def kw_isset : List Char := ['i', 's', 's', 'e', 't']
/-- The keyword `isnotset`. -/
def kw_isnotset : List Char := ['i', 's', 'n', 'o', 't', 's', 'e', 't']
/-- The keyword `set`. -/
def kw_set : List Char := ['s', 'e', 't']
/-- The keyword `unset`. -/
def kw_unset : List Char := ['u', 'n', 's', 'e', 't']
/-- The keyword `toggle`. -/
def kw_toggle : List Char := ['t', 'o', 'g', 'g', 'l', 'e']

/-- The `strcmp` chain of `DetectFlowbitSetup` (source lines 170-185): the command
code of the command word, `none` for the final `else` (action not supported). -/
def fb_cmd_of (fb_cmd_str : List Char) : Option DetectFlowbitsCmd :=
  if fb_cmd_str = kw_noalert then some DETECT_FLOWBITS_CMD_NOALERT
  else if fb_cmd_str = kw_isset then some DETECT_FLOWBITS_CMD_ISSET
  else if fb_cmd_str = kw_isnotset then some DETECT_FLOWBITS_CMD_ISNOTSET
  else if fb_cmd_str = kw_set then some DETECT_FLOWBITS_CMD_SET
  else if fb_cmd_str = kw_unset then some DETECT_FLOWBITS_CMD_UNSET
  else if fb_cmd_str = kw_toggle then some DETECT_FLOWBITS_CMD_TOGGLE
  else none

/-- The tail of `DetectFlowbitSetup` after the `switch` (source lines 203-229):
allocate the instruction, resolve the name, allocate the node, append it. -/
def setupAttach (c : DetectConsts) (a : Alloc) (de_ctx : DetectEngineCtx) (s : Signature)
    (fb_cmd : DetectFlowbitsCmd) (fb_name : Option (List Char)) :
    Int × DetectEngineCtx × Signature :=
  if !a.malloc then (-1, de_ctx, s)
  else
    let r : Nat × DetectEngineCtx :=
      match fb_name with
      | some name => VariableNameGetIdx de_ctx name c.DETECT_FLOWBITS
      | none => (0, de_ctx)
    let cd : DetectFlowbitsData := { idx := r.1, cmd := fb_cmd }
    if !a.SigMatchAlloc then (-1, r.2, s)
    else (0, r.2, SigMatchAppend s { type := c.DETECT_FLOWBITS, ctx := some cd })

/-- The `switch (fb_cmd)` of `DetectFlowbitSetup` and what follows it (source lines
187-235). -/
def setupSwitch (c : DetectConsts) (a : Alloc) (de_ctx : DetectEngineCtx) (s : Signature)
    (fb_cmd : DetectFlowbitsCmd) (fb_name : Option (List Char)) :
    Int × DetectEngineCtx × Signature :=
  match fb_cmd with
  | DETECT_FLOWBITS_CMD_NOALERT =>
    if fb_name.isSome then (-1, de_ctx, s)
    else (0, de_ctx, { s with flags := s.flags ||| c.SIG_FLAG_NOALERT })
  | DETECT_FLOWBITS_CMD_ISNOTSET
  | DETECT_FLOWBITS_CMD_ISSET
  | DETECT_FLOWBITS_CMD_SET
  | DETECT_FLOWBITS_CMD_UNSET
  | DETECT_FLOWBITS_CMD_TOGGLE =>
    if fb_name.isNone then (-1, de_ctx, s)
    else setupAttach c a de_ctx s fb_cmd fb_name
  | OTHER _ => setupAttach c a de_ctx s fb_cmd fb_name

/-- The function `DetectFlowbitSetup(de_ctx, s, m, rawstr)`: the return code, the
rule-set context and the rule after the call. -/
def DetectFlowbitSetup (c : DetectConsts) (a : Alloc) (de_ctx : DetectEngineCtx)
    (s : Signature) (rawstr : List Char) : Int × DetectEngineCtx × Signature :=
  let r := pcre_exec rawstr (strlen rawstr)
  let ret := r.1
  let ov := r.2
  if ret ≠ 2 ∧ ret ≠ 3 then (-1, de_ctx, s)
  else
    match pcre_get_substring a.get_substring_cmd rawstr ov MAX_SUBSTRINGS 1 with
    | none => (-1, de_ctx, s)
    | some fb_cmd_str =>
      let name_res : Option (Option (List Char)) :=
        if ret = 3 then
          match pcre_get_substring a.get_substring_name rawstr ov MAX_SUBSTRINGS 2 with
          | none => none
          | some str_ptr => some (some str_ptr)
        else some none
      match name_res with
      | none => (-1, de_ctx, s)
      | some fb_name =>
        match fb_cmd_of fb_cmd_str with
        | none => (-1, de_ctx, s)
        | some fb_cmd => setupSwitch c a de_ctx s fb_cmd fb_name

/-! ## The evaluator -/

/-- The function `DetectFlowbitMatchToggle`. -/
def DetectFlowbitMatchToggle (c : DetectConsts) (mem : FlowMem) (p : Packet)
    (fd : DetectFlowbitsData) : Int × FlowMem :=
  match p.flow with
  | none => (0, mem)
  | some f => (1, mem.write f (FlowBitToggle c (mem f) fd.idx))

/-- The function `DetectFlowbitMatchUnset`. -/
def DetectFlowbitMatchUnset (c : DetectConsts) (mem : FlowMem) (p : Packet)
    (fd : DetectFlowbitsData) : Int × FlowMem :=
  match p.flow with
  | none => (0, mem)
  | some f => (1, mem.write f (FlowBitUnset c (mem f) fd.idx))

/-- The function `DetectFlowbitMatchSet`. -/
def DetectFlowbitMatchSet (c : DetectConsts) (mem : FlowMem) (p : Packet)
    (fd : DetectFlowbitsData) : Int × FlowMem :=
  match p.flow with
  | none => (0, mem)
  | some f => (1, mem.write f (FlowBitSet c (mem f) fd.idx))

/-- The function `DetectFlowbitMatchIsset`. -/
def DetectFlowbitMatchIsset (c : DetectConsts) (mem : FlowMem) (p : Packet)
    (fd : DetectFlowbitsData) : Int × FlowMem :=
  match p.flow with
  | none => (0, mem)
  | some f => (FlowBitIsset c (mem f) fd.idx, mem)

/-- The function `DetectFlowbitMatchIsnotset`. -/
def DetectFlowbitMatchIsnotset (c : DetectConsts) (mem : FlowMem) (p : Packet)
    (fd : DetectFlowbitsData) : Int × FlowMem :=
  match p.flow with
  | none => (0, mem)
  | some f => (FlowBitIsnotset c (mem f) fd.idx, mem)

/-- The function `DetectFlowbitMatch(t, det_ctx, p, s, m)`: the return code and the
flow memory after the call (`t`, `det_ctx` and `s` are not used by the source). -/
def DetectFlowbitMatch (c : DetectConsts) (mem : FlowMem) (p : Packet) (m : SigMatch) :
    Int × FlowMem :=
  match m.ctx with
  | none => (0, mem)
  | some fd =>
    match fd.cmd with
    | DETECT_FLOWBITS_CMD_ISSET => DetectFlowbitMatchIsset c mem p fd
    | DETECT_FLOWBITS_CMD_ISNOTSET => DetectFlowbitMatchIsnotset c mem p fd
    | DETECT_FLOWBITS_CMD_SET => DetectFlowbitMatchSet c mem p fd
    | DETECT_FLOWBITS_CMD_UNSET => DetectFlowbitMatchUnset c mem p fd
    | DETECT_FLOWBITS_CMD_TOGGLE => DetectFlowbitMatchToggle c mem p fd
    | _ => (0, mem)

/-! ## The tokens of an option text -/

/-- The subject handed to `pcre_exec`: the characters of `rawstr` before the first
NUL. -/
def subjectOf (rawstr : List Char) : List Char :=
  rawstr.takeWhile (fun ch => ch ≠ Char.ofNat 0)

/-- The subject from its first lowercase letter on. -/
def fromCmd (rawstr : List Char) : List Char :=
  (subjectOf rawstr).dropWhile (fun ch => !isCmdChar ch)

/-- The command token: the run of lowercase letters the tokenizer extracts as
group 1. -/
def cmdToken (rawstr : List Char) : List Char :=
  (fromCmd rawstr).takeWhile isCmdChar

/-- What follows the command token in the subject. -/
def afterCmd (rawstr : List Char) : List Char :=
  (fromCmd rawstr).dropWhile isCmdChar

/-- The name token, group 2: present iff a comma follows the command token, and then
the run of `.` after the comma. -/
def nameToken (rawstr : List Char) : Option (List Char) :=
  match afterCmd rawstr with
  | ch :: tail => if ch = ',' then some (tail.takeWhile isDotChar) else none
  | [] => none

/-- Offset of the first lowercase letter of the subject. -/
def cmdStart (rawstr : List Char) : Nat :=
  ((subjectOf rawstr).takeWhile (fun ch => !isCmdChar ch)).length

/-- The command word of an option text as the compiler obtains it (source lines
147-159): group 1 of the tokenizer, when the tokenizer matches. -/
def fb_cmd_str_of (rawstr : List Char) : Option (List Char) :=
  let r := pcre_exec rawstr (strlen rawstr)
  if r.1 ≠ 2 ∧ r.1 ≠ 3 then none
  else pcre_get_substring true rawstr r.2 MAX_SUBSTRINGS 1

/-- The name of an option text as the compiler obtains it (source lines 161-168):
group 2 of the tokenizer, when the tokenizer returns 3. -/
def fb_name_of (rawstr : List Char) : Option (List Char) :=
  let r := pcre_exec rawstr (strlen rawstr)
  if r.1 = 3 then pcre_get_substring true rawstr r.2 MAX_SUBSTRINGS 2
  else none

/-- The five keywords that take a name, each with its command code. -/
def namedKeywords : List (List Char × DetectFlowbitsCmd) :=
  [(kw_isset, DETECT_FLOWBITS_CMD_ISSET), (kw_isnotset, DETECT_FLOWBITS_CMD_ISNOTSET),
   (kw_set, DETECT_FLOWBITS_CMD_SET), (kw_unset, DETECT_FLOWBITS_CMD_UNSET),
   (kw_toggle, DETECT_FLOWBITS_CMD_TOGGLE)]

/-- The six keywords of the option. -/
def keywords : List (List Char) :=
  [kw_noalert, kw_isset, kw_isnotset, kw_set, kw_unset, kw_toggle]

/-- Constants for the concrete runs of the model. -/
def exampleConsts : DetectConsts := { DETECT_FLOWBITS := 7, SIG_FLAG_NOALERT := 8 }

/-- The allocator that always returns memory. -/
def allocOk : Alloc := ⟨true, true, true, true⟩

/-- A rule with two flag bits set and one node in its match chain. -/
def exampleSig : Signature := { flags := 3, match_list := [{ type := 1, ctx := none }] }

/-- The grammar's shape of the text as a whole, in the spec's words: a keyword of
lowercase letters from the start of the text, optionally followed by a comma and a
name. -/
def wholeGrammarShape (rawstr : List Char) : Bool :=
  let k := rawstr.takeWhile isCmdChar
  !k.isEmpty &&
    (match rawstr.drop k.length with
     | [] => true
     | ch :: _ => ch = ',')

/-- The shape of the texts the compiler accepts: the first run of lowercase letters
of the text is one of the six keywords, with a comma right after it when it is one
of the five that take a name, and without one when it is `noalert`. -/
def acceptedShape (rawstr : List Char) : Bool :=
  let w := cmdToken rawstr
  let comma : Bool := (afterCmd rawstr).head? = some ','
  (w = kw_noalert && !comma) ||
    ((w = kw_isset || w = kw_isnotset || w = kw_set || w = kw_unset || w = kw_toggle) && comma)

/-- The number of records of the flowbits kind with index `j` in a flow's store. -/
def flowbitCount (c : DetectConsts) (f : Flow) (j : Nat) : Nat :=
  f.flowvar.countP (fun gv => gv.type = c.DETECT_FLOWBITS ∧ gv.idx = j)

/-- The records of a flow's store that are not of the flowbits kind, in order. -/
def otherVars (c : DetectConsts) (f : Flow) : List GenericVar :=
  f.flowvar.filter (fun gv => gv.type ≠ c.DETECT_FLOWBITS)

/-- One call of the compiler during the load of a rule set: the outcome of its
allocations, the rule under compilation and the option text. -/
structure SetupCall where
  a : Alloc
  s : Signature
  rawstr : List Char
  deriving DecidableEq, Repr

/-- The rule-set context after a call of the compiler. -/
def ctxAfter (c : DetectConsts) (a : Alloc) (de_ctx : DetectEngineCtx) (s : Signature)
    (rawstr : List Char) : DetectEngineCtx :=
  (DetectFlowbitSetup c a de_ctx s rawstr).2.1

/-- The rule-set context after a sequence of calls of the compiler, each on the
context the call before it has left. -/
def compileCalls (c : DetectConsts) (de_ctx : DetectEngineCtx) :
    List SetupCall → DetectEngineCtx
  | [] => de_ctx
  | x :: xs => compileCalls c (ctxAfter c x.a de_ctx x.s x.rawstr) xs

/-- The last node of a rule's match chain: after a successful call of the compiler
on a name-taking keyword, the node the call has appended. -/
def lastSigMatch (s : Signature) : SigMatch :=
  s.match_list.getLast?.getD { type := 0, ctx := none }

/-- The node a call of the compiler leaves at the end of the rule's match chain. -/
def attachedBy (c : DetectConsts) (a : Alloc) (de_ctx : DetectEngineCtx) (s : Signature)
    (rawstr : List Char) : SigMatch :=
  lastSigMatch (DetectFlowbitSetup c a de_ctx s rawstr).2.2

/-- The variable index an instruction node holds (0 for a node without
instruction). -/
def instrIdx (m : SigMatch) : Nat :=
  match m.ctx with
  | some fd => fd.idx
  | none => 0

/-- The index the name table holds for a name of a class, if any. -/
def nameIdx? (de_ctx : DetectEngineCtx) (name : List Char) (type : Nat) : Option Nat :=
  (de_ctx.variable_names.find? (fun e => e.name = name ∧ e.type = type)).map (fun e => e.idx)

/-- Well-formed name tables, as the spec describes them: every index is at least 1
and at most the counter, and no index is held by two different keys. -/
def NameTableWf (de_ctx : DetectEngineCtx) : Prop :=
  (∀ e ∈ de_ctx.variable_names, 1 ≤ e.idx ∧ e.idx ≤ de_ctx.variable_names_idx) ∧
    ∀ e1 ∈ de_ctx.variable_names, ∀ e2 ∈ de_ctx.variable_names,
      e1.idx = e2.idx → e1.name = e2.name ∧ e1.type = e2.type

/-- The two results of the end-to-end scenario: the evaluation of the isset
instruction on the flow memory as it is, and its evaluation after the set
instruction has been evaluated on a packet of the same flow. -/
def issetBeforeAfterSet (c : DetectConsts) (mem : FlowMem) (p : Packet)
    (mset misset : SigMatch) : Int × Int :=
  ((DetectFlowbitMatch c mem p misset).1,
    (DetectFlowbitMatch c (DetectFlowbitMatch c mem p mset).2 p misset).1)

/-- The command an instruction node holds, if the node has an instruction. -/
def instrCmd (m : SigMatch) : Option DetectFlowbitsCmd :=
  match m.ctx with
  | some fd => some fd.cmd
  | none => none

/-- The commands that have a case of their own in the `switch` of
`DetectFlowbitMatch`; every other value takes its `default` branch. -/
def evaluatedCmds : List DetectFlowbitsCmd :=
  [DETECT_FLOWBITS_CMD_ISSET, DETECT_FLOWBITS_CMD_ISNOTSET, DETECT_FLOWBITS_CMD_SET,
   DETECT_FLOWBITS_CMD_UNSET, DETECT_FLOWBITS_CMD_TOGGLE]

/-! ## Lemmas on the tokenizer -/

theorem take_length_takeWhile {α : Type} (p : α → Bool) (l : List α) :
    l.take (l.takeWhile p).length = l.takeWhile p := by
  induction l with
  | nil => rfl
  | cons x xs ih =>
    by_cases hx : p x = true
    · simp [List.takeWhile_cons, hx, ih]
    · simp [List.takeWhile_cons, hx]

theorem drop_length_takeWhile {α : Type} (p : α → Bool) (l : List α) :
    l.drop (l.takeWhile p).length = l.dropWhile p := by
  induction l with
  | nil => rfl
  | cons x xs ih =>
    by_cases hx : p x = true
    · simp [List.takeWhile_cons, List.dropWhile_cons, hx, ih]
    · simp [List.takeWhile_cons, List.dropWhile_cons, hx]

theorem take_strlen (rawstr : List Char) : rawstr.take (strlen rawstr) = subjectOf rawstr := by
  unfold strlen subjectOf
  exact take_length_takeWhile _ _

/-- A slice that lies inside a prefix of the list can be read off the prefix. -/
theorem slice_of_take {α : Type} (l : List α) (n b k : Nat) (h : b + k ≤ (l.take n).length) :
    (l.drop b).take k = ((l.take n).drop b).take k := by
  conv_lhs => rw [← List.take_append_drop n l]
  have hb : b ≤ (l.take n).length := by omega
  rw [List.drop_append_of_le_length hb]
  have hk : k ≤ ((l.take n).drop b).length := by
    rw [List.length_drop]; omega
  rw [List.take_append_of_le_length hk]

theorem subject_parts (rawstr : List Char) :
    subjectOf rawstr =
      (subjectOf rawstr).takeWhile (fun ch => !isCmdChar ch) ++ (cmdToken rawstr ++ afterCmd rawstr) := by
  unfold cmdToken afterCmd fromCmd
  rw [List.takeWhile_append_dropWhile, List.takeWhile_append_dropWhile]

theorem drop_start (rawstr : List Char) :
    (subjectOf rawstr).drop (cmdStart rawstr) = fromCmd rawstr := by
  unfold fromCmd cmdStart
  exact drop_length_takeWhile _ _

theorem drop_start_word (rawstr : List Char) :
    (subjectOf rawstr).drop (cmdStart rawstr + (cmdToken rawstr).length) = afterCmd rawstr := by
  rw [← List.drop_drop, drop_start]
  unfold cmdToken afterCmd
  exact drop_length_takeWhile _ _

/-- The tokenizer's result in terms of the parts of the subject. -/
theorem pcre_exec_eq (rawstr : List Char) :
    pcre_exec rawstr (strlen rawstr) =
      if cmdToken rawstr = [] then (PCRE_ERROR_NOMATCH, [])
      else
        match afterCmd rawstr with
        | ch :: tail =>
          if ch = ',' then
            (3, [cmdStart rawstr,
                 cmdStart rawstr + (cmdToken rawstr).length + 1 + (tail.takeWhile isDotChar).length,
                 cmdStart rawstr, cmdStart rawstr + (cmdToken rawstr).length,
                 cmdStart rawstr + (cmdToken rawstr).length + 1,
                 cmdStart rawstr + (cmdToken rawstr).length + 1 + (tail.takeWhile isDotChar).length])
          else (2, [cmdStart rawstr, cmdStart rawstr + (cmdToken rawstr).length,
                    cmdStart rawstr, cmdStart rawstr + (cmdToken rawstr).length])
        | [] => (2, [cmdStart rawstr, cmdStart rawstr + (cmdToken rawstr).length,
                     cmdStart rawstr, cmdStart rawstr + (cmdToken rawstr).length]) := by
  have h1 := drop_start rawstr
  have h2 := drop_start_word rawstr
  unfold pcre_exec
  simp only [take_strlen]
  unfold cmdStart at h1 h2 ⊢
  simp only [h1]
  unfold cmdToken at h2 ⊢
  simp only [h2, List.length_eq_zero]

theorem subject_length (rawstr : List Char) :
    (rawstr.take (strlen rawstr)).length
      = cmdStart rawstr + (cmdToken rawstr).length + (afterCmd rawstr).length := by
  rw [take_strlen]
  conv_lhs => rw [subject_parts rawstr]
  simp [cmdStart, Nat.add_assoc]

/-- Group 1 as `pcre_get_substring` copies it out of `rawstr`. -/
theorem substring_cmd (rawstr : List Char) :
    (rawstr.drop (cmdStart rawstr)).take (cmdToken rawstr).length = cmdToken rawstr := by
  rw [slice_of_take rawstr (strlen rawstr) _ _ (by rw [subject_length]; omega)]
  rw [take_strlen, drop_start]
  unfold cmdToken
  exact take_length_takeWhile _ _

/-- Group 2 as `pcre_get_substring` copies it out of `rawstr`. -/
theorem substring_name (rawstr : List Char) (tail : List Char)
    (h : afterCmd rawstr = ',' :: tail) :
    (rawstr.drop (cmdStart rawstr + (cmdToken rawstr).length + 1)).take
        (tail.takeWhile isDotChar).length
      = tail.takeWhile isDotChar := by
  have hlen : (tail.takeWhile isDotChar).length ≤ tail.length :=
    (List.takeWhile_sublist isDotChar).length_le
  rw [slice_of_take rawstr (strlen rawstr) _ _
    (by rw [subject_length, h, List.length_cons]; omega)]
  rw [take_strlen, ← List.drop_drop, drop_start_word, h]
  simp only [List.drop_succ_cons, List.drop_zero]
  exact take_length_takeWhile _ _

/-- The compiler in terms of the two tokens: it fails without a command token, and
otherwise runs the keyword chain on the command token and the `switch` on the
command and the name token. -/
theorem DetectFlowbitSetup_eq (c : DetectConsts) (a : Alloc) (de_ctx : DetectEngineCtx)
    (s : Signature) (rawstr : List Char) :
    DetectFlowbitSetup c a de_ctx s rawstr =
      if cmdToken rawstr = [] then (-1, de_ctx, s)
      else if a.get_substring_cmd = false then (-1, de_ctx, s)
      else if (nameToken rawstr).isSome ∧ a.get_substring_name = false then (-1, de_ctx, s)
      else
        match fb_cmd_of (cmdToken rawstr) with
        | none => (-1, de_ctx, s)
        | some fb_cmd => setupSwitch c a de_ctx s fb_cmd (nameToken rawstr) := by
  unfold DetectFlowbitSetup
  simp only [pcre_exec_eq]
  by_cases hw : cmdToken rawstr = []
  · simp [hw, PCRE_ERROR_NOMATCH]
  · simp only [hw, if_false]
    unfold nameToken
    cases h : afterCmd rawstr with
    | nil =>
      cases hc : a.get_substring_cmd <;>
        simp [pcre_get_substring, MAX_SUBSTRINGS, hc, substring_cmd]
    | cons ch tail =>
      by_cases hch : ch = ','
      · subst hch
        have hn := substring_name rawstr tail h
        cases hc : a.get_substring_cmd <;> cases hm : a.get_substring_name <;>
          simp [pcre_get_substring, MAX_SUBSTRINGS, hc, hm, substring_cmd, hn]
      · cases hc : a.get_substring_cmd <;>
          simp [pcre_get_substring, MAX_SUBSTRINGS, hc, hch, substring_cmd]

theorem cmdChar_ne_nul (ch : Char) (h : isCmdChar ch = true) : ch ≠ Char.ofNat 0 := by
  intro h0
  subst h0
  revert h
  decide

theorem takeWhile_of_head {α : Type} (p : α → Bool) (l : List α)
    (h : ∀ x ∈ l.head?, p x = false) : l.takeWhile p = [] := by
  cases l with
  | nil => rfl
  | cons x xs =>
    have hx : p x = false := h x (by simp)
    simp [List.takeWhile_cons, hx]

theorem dropWhile_of_head {α : Type} (p : α → Bool) (l : List α)
    (h : ∀ x ∈ l.head?, p x = false) : l.dropWhile p = l := by
  cases l with
  | nil => rfl
  | cons x xs =>
    have hx : p x = false := h x (by simp)
    simp [List.dropWhile_cons, hx]

theorem subjectOf_append (l r : List Char) (hl : ∀ ch ∈ l, ch ≠ Char.ofNat 0) :
    subjectOf (l ++ r) = l ++ subjectOf r := by
  unfold subjectOf
  exact List.takeWhile_append_of_pos (by simpa using hl)

/-- The tokens of a text made of a part without lowercase letters, a run of
lowercase letters and a rest that does not start with one. -/
theorem tokens_of_parts (p k r : List Char)
    (hp : ∀ ch ∈ p, isCmdChar ch = false ∧ ch ≠ Char.ofNat 0)
    (hk : ∀ ch ∈ k, isCmdChar ch = true) (hk0 : k ≠ [])
    (hr : ∀ ch ∈ (subjectOf r).head?, isCmdChar ch = false) :
    cmdStart (p ++ (k ++ r)) = p.length ∧ cmdToken (p ++ (k ++ r)) = k ∧
      afterCmd (p ++ (k ++ r)) = subjectOf r := by
  have hs : subjectOf (p ++ (k ++ r)) = p ++ (k ++ subjectOf r) := by
    rw [subjectOf_append _ _ (fun ch h => (hp ch h).2),
      subjectOf_append _ _ (fun ch h => cmdChar_ne_nul ch (hk ch h))]
  have hkr : ∀ x ∈ (k ++ subjectOf r).head?, (fun ch => !isCmdChar ch) x = false := by
    cases k with
    | nil => exact absurd rfl hk0
    | cons x xs =>
      intro y hy
      simp at hy
      subst hy
      simp [hk x (by simp)]
  have hp2 : ∀ ch ∈ p, (fun ch => !isCmdChar ch) ch = true := by
    intro ch h
    simp [(hp ch h).1]
  have hfrom : fromCmd (p ++ (k ++ r)) = k ++ subjectOf r := by
    unfold fromCmd
    rw [hs, List.dropWhile_append_of_pos hp2, dropWhile_of_head _ _ hkr]
  refine ⟨?_, ?_, ?_⟩
  · unfold cmdStart
    rw [hs, List.takeWhile_append_of_pos hp2, takeWhile_of_head _ _ hkr]
    simp
  · unfold cmdToken
    rw [hfrom, List.takeWhile_append_of_pos hk, takeWhile_of_head _ _ hr]
    simp
  · unfold afterCmd
    rw [hfrom, List.dropWhile_append_of_pos hk, dropWhile_of_head _ _ hr]

/-- The tokens of `k,n` for a run `k` of lowercase letters: the command token is
`k`, the name token is `n` up to its first line feed (or NUL). -/
theorem tokens_of_word_comma (k n : List Char)
    (hk : ∀ ch ∈ k, isCmdChar ch = true) (hk0 : k ≠ []) :
    cmdToken (k ++ ',' :: n) = k ∧
      nameToken (k ++ ',' :: n) = some ((subjectOf n).takeWhile isDotChar) := by
  have hc : subjectOf (',' :: n) = ',' :: subjectOf n :=
    subjectOf_append [','] n (by decide)
  have h := tokens_of_parts [] k (',' :: n) (by simp) hk hk0
    (by rw [hc]; intro ch hch; simp at hch; subst hch; decide)
  simp only [List.nil_append] at h
  refine ⟨h.2.1, ?_⟩
  unfold nameToken
  rw [h.2.2, hc]
  simp

/-- The tokens of a bare run `k` of lowercase letters: the command token is `k` and
there is no name token. -/
theorem tokens_of_word (k : List Char)
    (hk : ∀ ch ∈ k, isCmdChar ch = true) (hk0 : k ≠ []) :
    cmdToken k = k ∧ nameToken k = none := by
  have h := tokens_of_parts [] k [] (by simp) hk hk0 (by simp [subjectOf])
  simp only [List.nil_append, List.append_nil] at h
  refine ⟨h.2.1, ?_⟩
  unfold nameToken
  rw [h.2.2]
  simp [subjectOf]

theorem fb_cmd_str_of_eq (rawstr : List Char) :
    fb_cmd_str_of rawstr = if cmdToken rawstr = [] then none else some (cmdToken rawstr) := by
  unfold fb_cmd_str_of
  simp only [pcre_exec_eq]
  by_cases hw : cmdToken rawstr = []
  · simp [hw, PCRE_ERROR_NOMATCH]
  · simp only [hw, if_false]
    cases h : afterCmd rawstr with
    | nil => simp [pcre_get_substring, MAX_SUBSTRINGS, substring_cmd]
    | cons ch tail =>
      by_cases hch : ch = ','
      · simp [pcre_get_substring, MAX_SUBSTRINGS, hch, substring_cmd]
      · simp [pcre_get_substring, MAX_SUBSTRINGS, hch, substring_cmd]

theorem fb_name_of_eq (rawstr : List Char) :
    fb_name_of rawstr = if cmdToken rawstr = [] then none else nameToken rawstr := by
  unfold fb_name_of
  simp only [pcre_exec_eq]
  by_cases hw : cmdToken rawstr = []
  · simp [hw, PCRE_ERROR_NOMATCH]
  · simp only [hw, if_false]
    unfold nameToken
    cases h : afterCmd rawstr with
    | nil => simp
    | cons ch tail =>
      by_cases hch : ch = ','
      · subst hch
        have hn := substring_name rawstr tail h
        simp [pcre_get_substring, MAX_SUBSTRINGS, hn]
      · simp [hch]

/-- Facts on the five keywords that take a name: lowercase letters only, not empty,
recognised by the keyword chain, and sent by the `switch` to the name check. -/
theorem namedKeywords_spec (k : List Char) (cmd : DetectFlowbitsCmd)
    (hk : (k, cmd) ∈ namedKeywords) :
    (∀ ch ∈ k, isCmdChar ch = true) ∧ k ≠ [] ∧ fb_cmd_of k = some cmd ∧
      (∀ c a de_ctx s, setupSwitch c a de_ctx s cmd none = (-1, de_ctx, s)) ∧
      (∀ c a de_ctx s n, setupSwitch c a de_ctx s cmd (some n)
        = setupAttach c a de_ctx s cmd (some n)) := by
  simp only [namedKeywords, List.mem_cons, Prod.mk.injEq, List.mem_nil_iff, or_false] at hk
  rcases hk with ⟨rfl, rfl⟩ | ⟨rfl, rfl⟩ | ⟨rfl, rfl⟩ | ⟨rfl, rfl⟩ | ⟨rfl, rfl⟩ <;>
    refine ⟨by decide, by decide, by decide, ?_, ?_⟩ <;> intros <;> simp [setupSwitch]

theorem setupAttach_ok (c : DetectConsts) (a : Alloc) (de_ctx : DetectEngineCtx)
    (s : Signature) (cmd : DetectFlowbitsCmd) (n : List Char) (ha : a.succeeds = true) :
    setupAttach c a de_ctx s cmd (some n) =
      (0, (VariableNameGetIdx de_ctx n c.DETECT_FLOWBITS).2,
        { flags := s.flags,
          match_list := s.match_list ++
            [{ type := c.DETECT_FLOWBITS,
               ctx := some { idx := (VariableNameGetIdx de_ctx n c.DETECT_FLOWBITS).1,
                             cmd := cmd } }] }) := by
  simp only [Alloc.succeeds, Bool.and_eq_true] at ha
  simp [setupAttach, ha.1.2, ha.2, SigMatchAppend]

/-- The compiler on `k,n` for one of the five keywords that take a name, when the
allocations succeed: the name resolved is `n` up to its first line feed (or NUL). -/
theorem setup_named (c : DetectConsts) (a : Alloc) (de_ctx : DetectEngineCtx)
    (s : Signature) (k : List Char) (cmd : DetectFlowbitsCmd) (n : List Char)
    (hk : (k, cmd) ∈ namedKeywords) (ha : a.succeeds = true) :
    DetectFlowbitSetup c a de_ctx s (k ++ ',' :: n) =
      setupAttach c a de_ctx s cmd (some ((subjectOf n).takeWhile isDotChar)) := by
  obtain ⟨hch, hk0, hcmd, -, hsw⟩ := namedKeywords_spec k cmd hk
  obtain ⟨ht, hn⟩ := tokens_of_word_comma k n hch hk0
  have ha2 := ha
  simp only [Alloc.succeeds, Bool.and_eq_true] at ha2
  rw [DetectFlowbitSetup_eq, ht, hn]
  simp [hk0, ha2.1.1.1, ha2.1.1.2, hcmd, hsw]

/-- C1: for each of the keywords isset, isnotset, set, unset, toggle and every name
`n` accepted by the tokenizer (the name the compiler obtains from `k,n` is `n`),
`DetectFlowbitSetup` on `k,n` returns 0 and appends exactly one node of type
flowbits to the rule's match chain; the node's instruction holds the command of the
keyword and the index that `VariableNameGetIdx` returns for `n` in the flowbits
class of the rule set's name table (allocations succeeding). -/
theorem DetectFlowbitSetup_named_keyword (c : DetectConsts) (a : Alloc)
    (de_ctx : DetectEngineCtx) (s : Signature) (k : List Char) (cmd : DetectFlowbitsCmd)
    (n : List Char) (hk : (k, cmd) ∈ namedKeywords) (ha : a.succeeds = true)
    (hn : fb_name_of (k ++ ',' :: n) = some n) :
    DetectFlowbitSetup c a de_ctx s (k ++ ',' :: n) =
      (0, (VariableNameGetIdx de_ctx n c.DETECT_FLOWBITS).2,
        { flags := s.flags,
          match_list := s.match_list ++
            [{ type := c.DETECT_FLOWBITS,
               ctx := some { idx := (VariableNameGetIdx de_ctx n c.DETECT_FLOWBITS).1,
                             cmd := cmd } }] }) := by
  obtain ⟨hch, hk0, -, -, -⟩ := namedKeywords_spec k cmd hk
  obtain ⟨ht, hnt⟩ := tokens_of_word_comma k n hch hk0
  rw [fb_name_of_eq, ht, if_neg hk0, hnt] at hn
  rw [setup_named c a de_ctx s k cmd n hk ha, Option.some.inj hn]
  exact setupAttach_ok c a de_ctx s cmd n ha

/-- The run of C1 on `isset,fbt` in a fresh rule-set context, the text of
`FlowBitsTestSig04`: the instruction holds index 1. -/
theorem DetectFlowbitSetup_named_keyword_witness :
    DetectFlowbitSetup exampleConsts allocOk DetectEngineCtxInit exampleSig
        (kw_isset ++ ',' :: ['f', 'b', 't']) =
      (0, { variable_names := [⟨['f', 'b', 't'], 7, 1⟩], variable_names_idx := 1 },
        { flags := 3,
          match_list := [{ type := 1, ctx := none },
            { type := 7, ctx := some { idx := 1, cmd := DETECT_FLOWBITS_CMD_ISSET } }] }) :=
  DetectFlowbitSetup_named_keyword exampleConsts allocOk DetectEngineCtxInit exampleSig
    kw_isset DETECT_FLOWBITS_CMD_ISSET ['f', 'b', 't'] (by decide) (by decide) (by decide)

/-- C2: for each of the keywords isset, isnotset, set, unset, toggle,
`DetectFlowbitSetup` on the keyword alone (no comma, no name) returns -1; the rule
(its flags and its match chain, to which nothing is appended) and the name table
are left as they were, whatever the allocator does. -/
theorem DetectFlowbitSetup_missing_name (c : DetectConsts) (a : Alloc)
    (de_ctx : DetectEngineCtx) (s : Signature) (k : List Char) (cmd : DetectFlowbitsCmd)
    (hk : (k, cmd) ∈ namedKeywords) :
    DetectFlowbitSetup c a de_ctx s k = (-1, de_ctx, s) := by
  obtain ⟨hch, hk0, hcmd, hsw, -⟩ := namedKeywords_spec k cmd hk
  obtain ⟨ht, hn⟩ := tokens_of_word k hch hk0
  rw [DetectFlowbitSetup_eq, ht, hn]
  simp [hk0, hcmd, hsw]

/-- The run of C2 on the bare text `toggle`. -/
theorem DetectFlowbitSetup_missing_name_witness :
    DetectFlowbitSetup exampleConsts allocOk DetectEngineCtxInit exampleSig kw_toggle
      = (-1, DetectEngineCtxInit, exampleSig) :=
  DetectFlowbitSetup_missing_name exampleConsts allocOk DetectEngineCtxInit exampleSig
    kw_toggle DETECT_FLOWBITS_CMD_TOGGLE (by decide)

theorem fb_cmd_of_eq_none (w : List Char) (h : w ∉ keywords) : fb_cmd_of w = none := by
  simp only [keywords, List.mem_cons, List.mem_nil_iff, or_false, not_or] at h
  obtain ⟨h1, h2, h3, h4, h5, h6⟩ := h
  simp [fb_cmd_of, h1, h2, h3, h4, h5, h6]

/-- C3: for every option text whose command token (the run of lowercase letters the
tokenizer extracts as group 1) is none of the six keywords noalert, isset,
isnotset, set, unset, toggle, `DetectFlowbitSetup` returns -1, with or without a
name after it, and the rule's flags, its match chain and the name table are left as
they were. -/
theorem DetectFlowbitSetup_unknown_command (c : DetectConsts) (a : Alloc)
    (de_ctx : DetectEngineCtx) (s : Signature) (rawstr : List Char) (w : List Char)
    (hw : fb_cmd_str_of rawstr = some w) (hkw : w ∉ keywords) :
    DetectFlowbitSetup c a de_ctx s rawstr = (-1, de_ctx, s) := by
  rw [fb_cmd_str_of_eq] at hw
  by_cases h0 : cmdToken rawstr = []
  · simp [h0] at hw
  · rw [if_neg h0] at hw
    have hw2 : cmdToken rawstr = w := Option.some.inj hw
    rw [DetectFlowbitSetup_eq, hw2, fb_cmd_of_eq_none w hkw]
    simp

/-- The runs of C3 on `wrongcmd`, the text of `FlowBitsTestSig03`, and on
`bogus,x`, where a name follows. -/
theorem DetectFlowbitSetup_unknown_command_witness :
    DetectFlowbitSetup exampleConsts allocOk DetectEngineCtxInit exampleSig
        ['w', 'r', 'o', 'n', 'g', 'c', 'm', 'd'] = (-1, DetectEngineCtxInit, exampleSig) ∧
      DetectFlowbitSetup exampleConsts allocOk DetectEngineCtxInit exampleSig
        ['b', 'o', 'g', 'u', 's', ',', 'x'] = (-1, DetectEngineCtxInit, exampleSig) :=
  ⟨DetectFlowbitSetup_unknown_command exampleConsts allocOk DetectEngineCtxInit exampleSig
      ['w', 'r', 'o', 'n', 'g', 'c', 'm', 'd'] ['w', 'r', 'o', 'n', 'g', 'c', 'm', 'd']
      (by decide) (by decide),
    DetectFlowbitSetup_unknown_command exampleConsts allocOk DetectEngineCtxInit exampleSig
      ['b', 'o', 'g', 'u', 's', ',', 'x'] ['b', 'o', 'g', 'u', 's'] (by decide) (by decide)⟩

/-- C4: for every name string `n`, the empty one included, `DetectFlowbitSetup` on
`noalert,n` returns -1 and leaves the rule as it was: the `SIG_FLAG_NOALERT` bit is
not set (nor is the name table touched), whatever the allocator does. -/
theorem DetectFlowbitSetup_noalert_with_name (c : DetectConsts) (a : Alloc)
    (de_ctx : DetectEngineCtx) (s : Signature) (n : List Char) :
    DetectFlowbitSetup c a de_ctx s (kw_noalert ++ ',' :: n) = (-1, de_ctx, s) := by
  obtain ⟨ht, hn⟩ := tokens_of_word_comma kw_noalert n (by decide) (by decide)
  rw [DetectFlowbitSetup_eq, ht, hn]
  have hcmd : fb_cmd_of kw_noalert = some DETECT_FLOWBITS_CMD_NOALERT := by decide
  have h0 : kw_noalert ≠ [] := by decide
  cases h1 : a.get_substring_cmd <;> cases h2 : a.get_substring_name <;>
    simp [h0, hcmd, setupSwitch]

/-- C5: for every rule state, `DetectFlowbitSetup` on the bare text `noalert` returns
0; the rule's flags afterwards are the old flags with the bits of `SIG_FLAG_NOALERT`
set and every other bit as before; no node is appended to the match chain; and the
name table is the one before the call (the copy of the command word being
allocated). -/
theorem DetectFlowbitSetup_bare_noalert (c : DetectConsts) (a : Alloc)
    (de_ctx : DetectEngineCtx) (s : Signature) (ha : a.get_substring_cmd = true) :
    DetectFlowbitSetup c a de_ctx s kw_noalert =
        (0, de_ctx, { flags := s.flags ||| c.SIG_FLAG_NOALERT, match_list := s.match_list }) ∧
      ∀ i, (s.flags ||| c.SIG_FLAG_NOALERT).testBit i
        = (s.flags.testBit i || c.SIG_FLAG_NOALERT.testBit i) := by
  obtain ⟨ht, hn⟩ := tokens_of_word kw_noalert (by decide) (by decide)
  have hcmd : fb_cmd_of kw_noalert = some DETECT_FLOWBITS_CMD_NOALERT := by decide
  have h0 : kw_noalert ≠ [] := by decide
  refine ⟨?_, fun i => Nat.testBit_lor _ _ _⟩
  rw [DetectFlowbitSetup_eq, ht, hn]
  simp [h0, hcmd, setupSwitch, ha]

/-- The run of C5 on a rule with flags 3 when `SIG_FLAG_NOALERT` is 8: the flags
become 11, even when every later allocation would fail. -/
theorem DetectFlowbitSetup_bare_noalert_witness :
    DetectFlowbitSetup exampleConsts ⟨true, false, false, false⟩ DetectEngineCtxInit
        exampleSig kw_noalert
      = (0, DetectEngineCtxInit, { flags := 11, match_list := [{ type := 1, ctx := none }] }) :=
  (DetectFlowbitSetup_bare_noalert exampleConsts ⟨true, false, false, false⟩ DetectEngineCtxInit
    exampleSig rfl).1

/-- C6 as stated fails: on `set,a<LF>b` the compiler succeeds, but the name it
resolves is `a`, the remainder cut at the line feed, and not the remainder
`a<LF>b`. -/
theorem DetectFlowbitSetup_name_cut_at_line_feed :
    fb_name_of (kw_set ++ ',' :: ['a', Char.ofNat 10, 'b']) = some ['a'] ∧
      DetectFlowbitSetup exampleConsts allocOk DetectEngineCtxInit exampleSig
          (kw_set ++ ',' :: ['a', Char.ofNat 10, 'b']) =
        (0, { variable_names := [⟨['a'], 7, 1⟩], variable_names_idx := 1 },
          { flags := 3,
            match_list := [{ type := 1, ctx := none },
              { type := 7, ctx := some { idx := 1, cmd := DETECT_FLOWBITS_CMD_SET } }] }) ∧
      (VariableNameGetIdx DetectEngineCtxInit ['a', Char.ofNat 10, 'b'] 7).2 ≠
        { variable_names := [⟨['a'], 7, 1⟩], variable_names_idx := 1 } := by
  decide

theorem subjectOf_of_no_nul (r : List Char) (h : ∀ ch ∈ r, ch ≠ Char.ofNat 0) :
    subjectOf r = r := by
  have := subjectOf_append r [] h
  simpa [subjectOf] using this

/-- C6, amended: for each of the keywords isset, isnotset, set, unset, toggle and
every string `r` without a line feed (and, as the rest of a C string, without NUL),
`DetectFlowbitSetup` on `k,r` succeeds and the name it resolves through the name
table is exactly `r`, the literal remainder after the first comma: commas, spaces
and any other characters of `r` are part of the name, and the empty `r` is the
empty name (allocations succeeding). -/
theorem DetectFlowbitSetup_name_is_remainder (c : DetectConsts) (a : Alloc)
    (de_ctx : DetectEngineCtx) (s : Signature) (k : List Char) (cmd : DetectFlowbitsCmd)
    (r : List Char) (hk : (k, cmd) ∈ namedKeywords) (ha : a.succeeds = true)
    (hr : ∀ ch ∈ r, ch ≠ Char.ofNat 10 ∧ ch ≠ Char.ofNat 0) :
    fb_name_of (k ++ ',' :: r) = some r ∧
      DetectFlowbitSetup c a de_ctx s (k ++ ',' :: r) =
        (0, (VariableNameGetIdx de_ctx r c.DETECT_FLOWBITS).2,
          SigMatchAppend s
            { type := c.DETECT_FLOWBITS,
              ctx := some { idx := (VariableNameGetIdx de_ctx r c.DETECT_FLOWBITS).1,
                            cmd := cmd } }) := by
  obtain ⟨hch, hk0, -, -, -⟩ := namedKeywords_spec k cmd hk
  obtain ⟨ht, hnt⟩ := tokens_of_word_comma k r hch hk0
  have hsub : (subjectOf r).takeWhile isDotChar = r := by
    rw [subjectOf_of_no_nul r (fun ch h => (hr ch h).2)]
    have hdot : ∀ ch ∈ r, isDotChar ch = true := by
      intro ch h
      simpa [isDotChar] using (hr ch h).1
    have := @List.takeWhile_append_of_pos _ isDotChar r [] hdot
    simpa using this
  refine ⟨?_, ?_⟩
  · rw [fb_name_of_eq, ht, if_neg hk0, hnt, hsub]
  · rw [setup_named c a de_ctx s k cmd r hk ha, hsub, setupAttach_ok c a de_ctx s cmd r ha]
    rfl

/-- The runs of amended C6 on `unset,a, b,c`, whose remainder has commas and a
space, and on `set,`, whose remainder is empty. -/
theorem DetectFlowbitSetup_name_is_remainder_witness :
    (fb_name_of (kw_unset ++ ',' :: ['a', ',', ' ', 'b', ',', 'c'])
        = some ['a', ',', ' ', 'b', ',', 'c'] ∧
      DetectFlowbitSetup exampleConsts allocOk DetectEngineCtxInit exampleSig
          (kw_unset ++ ',' :: ['a', ',', ' ', 'b', ',', 'c']) =
        (0, { variable_names := [⟨['a', ',', ' ', 'b', ',', 'c'], 7, 1⟩],
              variable_names_idx := 1 },
          { flags := 3,
            match_list := [{ type := 1, ctx := none },
              { type := 7, ctx := some { idx := 1, cmd := DETECT_FLOWBITS_CMD_UNSET } }] })) ∧
    (fb_name_of (kw_set ++ ',' :: []) = some [] ∧
      DetectFlowbitSetup exampleConsts allocOk DetectEngineCtxInit exampleSig
          (kw_set ++ ',' :: []) =
        (0, { variable_names := [⟨[], 7, 1⟩], variable_names_idx := 1 },
          { flags := 3,
            match_list := [{ type := 1, ctx := none },
              { type := 7, ctx := some { idx := 1, cmd := DETECT_FLOWBITS_CMD_SET } }] })) :=
  ⟨DetectFlowbitSetup_name_is_remainder exampleConsts allocOk DetectEngineCtxInit exampleSig
      kw_unset DETECT_FLOWBITS_CMD_UNSET ['a', ',', ' ', 'b', ',', 'c'] (by decide) (by decide)
      (by decide),
    DetectFlowbitSetup_name_is_remainder exampleConsts allocOk DetectEngineCtxInit exampleSig
      kw_set DETECT_FLOWBITS_CMD_SET [] (by decide) (by decide) (by decide)⟩

/-- C7 as stated fails: the texts ` set,a` (a space before the command word) and
`noalert ,x` (a space between the command word and the comma) do not have the
grammar's shape as a whole, and `DetectFlowbitSetup` returns 0 on both: the first
attaches a `set` instruction for the name `a`, the second sets the
`SIG_FLAG_NOALERT` bit. -/
theorem DetectFlowbitSetup_accepts_unshaped_text :
    wholeGrammarShape (' ' :: kw_set ++ [',', 'a']) = false ∧
      DetectFlowbitSetup exampleConsts allocOk DetectEngineCtxInit exampleSig
          (' ' :: kw_set ++ [',', 'a']) =
        (0, { variable_names := [⟨['a'], 7, 1⟩], variable_names_idx := 1 },
          { flags := 3,
            match_list := [{ type := 1, ctx := none },
              { type := 7, ctx := some { idx := 1, cmd := DETECT_FLOWBITS_CMD_SET } }] }) ∧
      wholeGrammarShape (kw_noalert ++ [' ', ',', 'x']) = false ∧
      DetectFlowbitSetup exampleConsts allocOk DetectEngineCtxInit exampleSig
          (kw_noalert ++ [' ', ',', 'x']) =
        (0, DetectEngineCtxInit,
          { flags := 11, match_list := [{ type := 1, ctx := none }] }) := by
  decide

theorem nameToken_isSome (rawstr : List Char) :
    (nameToken rawstr).isSome = decide ((afterCmd rawstr).head? = some ',') := by
  unfold nameToken
  cases afterCmd rawstr with
  | nil => simp
  | cons ch tail =>
    by_cases hch : ch = ','
    · simp [hch]
    · simp [hch]

/-- The keyword chain by cases: `noalert`, one of the five keywords that take a
name, or no keyword at all. -/
theorem fb_cmd_of_cases (w : List Char) :
    (w = kw_noalert ∧ fb_cmd_of w = some DETECT_FLOWBITS_CMD_NOALERT) ∨
      (∃ cmd, (w, cmd) ∈ namedKeywords ∧ fb_cmd_of w = some cmd) ∨
      (w ∉ keywords ∧ fb_cmd_of w = none) := by
  by_cases h1 : w = kw_noalert
  · exact Or.inl ⟨h1, by rw [h1]; decide⟩
  by_cases h2 : w = kw_isset
  · exact Or.inr (Or.inl ⟨DETECT_FLOWBITS_CMD_ISSET, by rw [h2]; decide, by rw [h2]; decide⟩)
  by_cases h3 : w = kw_isnotset
  · exact Or.inr (Or.inl ⟨DETECT_FLOWBITS_CMD_ISNOTSET, by rw [h3]; decide, by rw [h3]; decide⟩)
  by_cases h4 : w = kw_set
  · exact Or.inr (Or.inl ⟨DETECT_FLOWBITS_CMD_SET, by rw [h4]; decide, by rw [h4]; decide⟩)
  by_cases h5 : w = kw_unset
  · exact Or.inr (Or.inl ⟨DETECT_FLOWBITS_CMD_UNSET, by rw [h5]; decide, by rw [h5]; decide⟩)
  by_cases h6 : w = kw_toggle
  · exact Or.inr (Or.inl ⟨DETECT_FLOWBITS_CMD_TOGGLE, by rw [h6]; decide, by rw [h6]; decide⟩)
  have hk : w ∉ keywords := by simp [keywords, h1, h2, h3, h4, h5, h6]
  exact Or.inr (Or.inr ⟨hk, fb_cmd_of_eq_none w hk⟩)

theorem namedKeywords_mem (w : List Char) (cmd : DetectFlowbitsCmd)
    (h : (w, cmd) ∈ namedKeywords) :
    w = kw_isset ∨ w = kw_isnotset ∨ w = kw_set ∨ w = kw_unset ∨ w = kw_toggle := by
  simp only [namedKeywords, List.mem_cons, Prod.mk.injEq, List.mem_nil_iff, or_false] at h
  rcases h with h | h | h | h | h <;> simp [h.1]

/-- C7, amended: `DetectFlowbitSetup` succeeds only on text of the shape it searches
for: the first run of lowercase letters of the text is one of the six keywords,
with a comma right after it for isset, isnotset, set, unset and toggle, and without
one for noalert. On every other text, for example a text without a lowercase
letter or one of the five keywords with another character between it and the
comma, it returns -1 and leaves the rule and the name table as they were. -/
theorem DetectFlowbitSetup_fails_off_shape (c : DetectConsts) (a : Alloc)
    (de_ctx : DetectEngineCtx) (s : Signature) (rawstr : List Char)
    (h : acceptedShape rawstr = false) :
    DetectFlowbitSetup c a de_ctx s rawstr = (-1, de_ctx, s) := by
  rw [DetectFlowbitSetup_eq]
  have hsome := nameToken_isSome rawstr
  unfold acceptedShape at h
  simp only [Bool.or_eq_false_iff, Bool.and_eq_false_iff, decide_eq_false_iff_not,
    Bool.not_eq_false', decide_eq_true_eq, Bool.or_eq_true, not_or] at h
  obtain ⟨hno, hnamed⟩ := h
  by_cases h0 : cmdToken rawstr = []
  · simp [h0]
  simp only [h0, if_false]
  split
  · rfl
  split
  · rfl
  rcases fb_cmd_of_cases (cmdToken rawstr) with ⟨hw, hcmd⟩ | ⟨cmd, hmem, hcmd⟩ | ⟨-, hcmd⟩
  · rcases hno with h1 | h1
    · exact absurd hw h1
    · have hs : (nameToken rawstr).isSome = true := by rw [hsome]; simpa using h1
      rw [hcmd]
      simp [setupSwitch, hs]
  · rcases hnamed with h1 | h1
    · rcases namedKeywords_mem _ _ hmem with h2 | h2 | h2 | h2 | h2 <;> simp [h2] at h1
    · have hs : nameToken rawstr = none := by
        have : (nameToken rawstr).isSome = false := by rw [hsome]; simpa using h1
        simpa using this
      rw [hcmd, hs]
      exact (namedKeywords_spec _ _ hmem).2.2.2.1 c a de_ctx s
  · rw [hcmd]

/-- The runs of amended C7 on `set x,a`, a character between the command word and
the comma, and on `123`, a text without a lowercase letter. -/
theorem DetectFlowbitSetup_fails_off_shape_witness :
    DetectFlowbitSetup exampleConsts allocOk DetectEngineCtxInit exampleSig
        (kw_set ++ [' ', 'x', ',', 'a']) = (-1, DetectEngineCtxInit, exampleSig) ∧
      DetectFlowbitSetup exampleConsts allocOk DetectEngineCtxInit exampleSig
        ['1', '2', '3'] = (-1, DetectEngineCtxInit, exampleSig) :=
  ⟨DetectFlowbitSetup_fails_off_shape exampleConsts allocOk DetectEngineCtxInit exampleSig
      (kw_set ++ [' ', 'x', ',', 'a']) (by decide),
    DetectFlowbitSetup_fails_off_shape exampleConsts allocOk DetectEngineCtxInit exampleSig
      ['1', '2', '3'] (by decide)⟩

theorem setupAttach_atomic (c : DetectConsts) (a : Alloc) (de_ctx : DetectEngineCtx)
    (s : Signature) (fb_cmd : DetectFlowbitsCmd) (fb_name : Option (List Char))
    (h : (setupAttach c a de_ctx s fb_cmd fb_name).1 = -1) :
    (setupAttach c a de_ctx s fb_cmd fb_name).2.2 = s := by
  unfold setupAttach at h ⊢
  cases hm : a.malloc <;> cases hs : a.SigMatchAlloc <;> simp [hm, hs] at h ⊢

theorem setupSwitch_atomic (c : DetectConsts) (a : Alloc) (de_ctx : DetectEngineCtx)
    (s : Signature) (fb_cmd : DetectFlowbitsCmd) (fb_name : Option (List Char))
    (h : (setupSwitch c a de_ctx s fb_cmd fb_name).1 = -1) :
    (setupSwitch c a de_ctx s fb_cmd fb_name).2.2 = s := by
  unfold setupSwitch at h ⊢
  cases fb_cmd <;> cases fb_name <;>
    first
    | exact setupAttach_atomic c a de_ctx s _ _ h
    | (simp at h ⊢; done)
    | (simp at h ⊢; exact setupAttach_atomic c a de_ctx s _ _ h)

/-- C8: compilation is atomic on failure: for every option text, every rule state
and every outcome of the allocations, if `DetectFlowbitSetup` returns -1 then the
rule after the call is the rule before it: its flags are the same (the
alert-suppression bit is not set) and its match chain is the same (no instruction
is attached). -/
theorem DetectFlowbitSetup_atomic_on_failure (c : DetectConsts) (a : Alloc)
    (de_ctx : DetectEngineCtx) (s : Signature) (rawstr : List Char)
    (h : (DetectFlowbitSetup c a de_ctx s rawstr).1 = -1) :
    (DetectFlowbitSetup c a de_ctx s rawstr).2.2 = s ∧
      (DetectFlowbitSetup c a de_ctx s rawstr).2.2.flags = s.flags ∧
      (DetectFlowbitSetup c a de_ctx s rawstr).2.2.match_list = s.match_list := by
  have key : (DetectFlowbitSetup c a de_ctx s rawstr).2.2 = s := by
    rw [DetectFlowbitSetup_eq] at h ⊢
    split
    · rfl
    · rename_i h0
      rw [if_neg h0] at h
      split
      · rfl
      · rename_i h1
        rw [if_neg h1] at h
        split
        · rfl
        · rename_i h2
          rw [if_neg h2] at h
          cases hc : fb_cmd_of (cmdToken rawstr) with
          | none => rfl
          | some fb_cmd =>
            rw [hc] at h
            exact setupSwitch_atomic c a de_ctx s fb_cmd _ h
  exact ⟨key, by rw [key], by rw [key]⟩

/-- The run of C8 on `set,a` when the match-chain node cannot be allocated: the
compiler has resolved the name, returns -1, and the rule is as before. -/
theorem DetectFlowbitSetup_atomic_on_failure_witness :
    (DetectFlowbitSetup exampleConsts ⟨true, true, true, false⟩ DetectEngineCtxInit
        exampleSig (kw_set ++ [',', 'a'])).1 = -1 ∧
      (DetectFlowbitSetup exampleConsts ⟨true, true, true, false⟩ DetectEngineCtxInit
        exampleSig (kw_set ++ [',', 'a'])).2.2 = exampleSig :=
  ⟨by decide,
    (DetectFlowbitSetup_atomic_on_failure exampleConsts ⟨true, true, true, false⟩
      DetectEngineCtxInit exampleSig (kw_set ++ [',', 'a']) (by decide)).1⟩

/-- C9: for every instruction, whatever its command (IsNotSet included), and every
packet without a flow, `DetectFlowbitMatch` returns 0 (no match) and the flow
memory, so every flow's variable store, is left as it was. -/
theorem DetectFlowbitMatch_no_flow (c : DetectConsts) (mem : FlowMem) (p : Packet)
    (m : SigMatch) (h : p.flow = none) :
    DetectFlowbitMatch c mem p m = (0, mem) := by
  unfold DetectFlowbitMatch
  cases m.ctx with
  | none => rfl
  | some fd =>
    simp only []
    split <;>
      simp [DetectFlowbitMatchIsset, DetectFlowbitMatchIsnotset, DetectFlowbitMatchSet,
        DetectFlowbitMatchUnset, DetectFlowbitMatchToggle, h]

/-- The run of C9 on an `isnotset` instruction and a packet without a flow: the
result is 0, although the flag is set on no flow. -/
theorem DetectFlowbitMatch_no_flow_witness :
    (DetectFlowbitMatch exampleConsts (fun _ => { flowvar := [] }) { flow := none }
      { type := 7, ctx := some { idx := 1, cmd := DETECT_FLOWBITS_CMD_ISNOTSET } }).1 = 0 :=
  congrArg Prod.fst
    (DetectFlowbitMatch_no_flow exampleConsts (fun _ => { flowvar := [] }) { flow := none }
      { type := 7, ctx := some { idx := 1, cmd := DETECT_FLOWBITS_CMD_ISNOTSET } } rfl)

theorem FlowBitGet_FlowBitSet (c : DetectConsts) (f : Flow) (idx : Nat) :
    FlowBitGet c (FlowBitSet c f idx) idx = true := by
  unfold FlowBitSet
  split
  · assumption
  · simp [FlowBitGet]

theorem FlowMem.write_same (mem : FlowMem) (a : Nat) (f : Flow) : mem.write a f a = f := by
  simp [FlowMem.write]

/-- C10: for every packet with a flow, every prior state of that flow's variable
store and every index `i`, `DetectFlowbitMatch` with a Set instruction for `i`
returns 1 (match), and afterwards the store of the packet's flow holds a record of
the flowbits kind with index `i`. -/
theorem DetectFlowbitMatch_set_inserts (c : DetectConsts) (mem : FlowMem) (p : Packet)
    (m : SigMatch) (f : Nat) (i : Nat) (hp : p.flow = some f)
    (hm : m.ctx = some { idx := i, cmd := DETECT_FLOWBITS_CMD_SET }) :
    (DetectFlowbitMatch c mem p m).1 = 1 ∧
      ∃ gv ∈ ((DetectFlowbitMatch c mem p m).2 f).flowvar,
        gv.type = c.DETECT_FLOWBITS ∧ gv.idx = i := by
  have hrun : DetectFlowbitMatch c mem p m = (1, mem.write f (FlowBitSet c (mem f) i)) := by
    simp [DetectFlowbitMatch, hm, DetectFlowbitMatchSet, hp]
  rw [hrun]
  refine ⟨rfl, ?_⟩
  have hget := FlowBitGet_FlowBitSet c (mem f) i
  simp only [FlowMem.write_same]
  unfold FlowBitGet at hget
  simpa using hget

/-- The runs of C10 on a flow whose store holds a record of another kind, where the
flag's record is added, and on a flow whose store already holds the flag, where the
store stays as it is. -/
theorem DetectFlowbitMatch_set_inserts_witness :
    ((DetectFlowbitMatch exampleConsts (fun _ => { flowvar := [⟨2, 5⟩] }) { flow := some 0 }
        { type := 7, ctx := some { idx := 5, cmd := DETECT_FLOWBITS_CMD_SET } }).1 = 1 ∧
      ((DetectFlowbitMatch exampleConsts (fun _ => { flowvar := [⟨2, 5⟩] }) { flow := some 0 }
        { type := 7, ctx := some { idx := 5, cmd := DETECT_FLOWBITS_CMD_SET } }).2 0).flowvar
        = [⟨2, 5⟩, ⟨7, 5⟩]) ∧
    ((DetectFlowbitMatch exampleConsts (fun _ => { flowvar := [⟨7, 5⟩] }) { flow := some 0 }
        { type := 7, ctx := some { idx := 5, cmd := DETECT_FLOWBITS_CMD_SET } }).1 = 1 ∧
      ((DetectFlowbitMatch exampleConsts (fun _ => { flowvar := [⟨7, 5⟩] }) { flow := some 0 }
        { type := 7, ctx := some { idx := 5, cmd := DETECT_FLOWBITS_CMD_SET } }).2 0).flowvar
        = [⟨7, 5⟩]) :=
  ⟨⟨(DetectFlowbitMatch_set_inserts exampleConsts (fun _ => { flowvar := [⟨2, 5⟩] })
        { flow := some 0 }
        { type := 7, ctx := some { idx := 5, cmd := DETECT_FLOWBITS_CMD_SET } } 0 5 rfl rfl).1,
      by decide⟩,
    ⟨(DetectFlowbitMatch_set_inserts exampleConsts (fun _ => { flowvar := [⟨7, 5⟩] })
        { flow := some 0 }
        { type := 7, ctx := some { idx := 5, cmd := DETECT_FLOWBITS_CMD_SET } } 0 5 rfl rfl).1,
      by decide⟩⟩

/-! ## Lemmas on the flow variable store -/

theorem FlowBitGet_iff (c : DetectConsts) (f : Flow) (idx : Nat) :
    FlowBitGet c f idx = true ↔
      ∃ gv ∈ f.flowvar, gv.type = c.DETECT_FLOWBITS ∧ gv.idx = idx := by
  simp [FlowBitGet]

theorem FlowBitGet_eq_false_iff (c : DetectConsts) (f : Flow) (idx : Nat) :
    FlowBitGet c f idx = false ↔
      ∀ gv ∈ f.flowvar, ¬ (gv.type = c.DETECT_FLOWBITS ∧ gv.idx = idx) := by
  rw [← Bool.not_eq_true, FlowBitGet_iff]
  simp

theorem mem_FlowBitUnset (c : DetectConsts) (f : Flow) (idx : Nat) (gv : GenericVar) :
    gv ∈ (FlowBitUnset c f idx).flowvar ↔
      gv ∈ f.flowvar ∧ ¬ (gv.type = c.DETECT_FLOWBITS ∧ gv.idx = idx) := by
  simp only [FlowBitUnset, List.mem_filter, decide_eq_true_eq]

theorem mem_FlowBitSet (c : DetectConsts) (f : Flow) (idx : Nat) (gv : GenericVar) :
    gv ∈ (FlowBitSet c f idx).flowvar ↔
      gv ∈ f.flowvar ∨ (gv.type = c.DETECT_FLOWBITS ∧ gv.idx = idx) := by
  unfold FlowBitSet
  split
  · rename_i h
    obtain ⟨x, hx, hxt, hxi⟩ := (FlowBitGet_iff c f idx).1 h
    constructor
    · exact Or.inl
    · rintro (h1 | ⟨h1, h2⟩)
      · exact h1
      · have : gv = x := by
          cases gv; cases x; simp_all
        rw [this]; exact hx
  · constructor
    · intro h1
      simp only [List.mem_append, List.mem_singleton] at h1
      rcases h1 with h1 | h1
      · exact Or.inl h1
      · exact Or.inr (by rw [h1]; exact ⟨rfl, rfl⟩)
    · rintro (h1 | ⟨h1, h2⟩)
      · simp [h1]
      · simp only [List.mem_append, List.mem_singleton]
        right
        cases gv; simp_all

theorem FlowBitGet_FlowBitUnset (c : DetectConsts) (f : Flow) (i j : Nat) :
    FlowBitGet c (FlowBitUnset c f i) j = (FlowBitGet c f j && decide (j ≠ i)) := by
  rw [Bool.eq_iff_iff]
  simp only [FlowBitGet_iff, mem_FlowBitUnset, Bool.and_eq_true, decide_eq_true_eq]
  constructor
  · rintro ⟨gv, ⟨hm, hn⟩, ht, hi⟩
    refine ⟨⟨gv, hm, ht, hi⟩, ?_⟩
    intro hji
    exact hn ⟨ht, by rw [hi, hji]⟩
  · rintro ⟨⟨gv, hm, ht, hi⟩, hji⟩
    exact ⟨gv, ⟨hm, fun h => hji (by rw [← hi, h.2])⟩, ht, hi⟩

theorem FlowBitGet_FlowBitSet_other (c : DetectConsts) (f : Flow) (i j : Nat) :
    FlowBitGet c (FlowBitSet c f i) j = (FlowBitGet c f j || decide (j = i)) := by
  rw [Bool.eq_iff_iff]
  simp only [FlowBitGet_iff, mem_FlowBitSet, Bool.or_eq_true, decide_eq_true_eq]
  constructor
  · rintro ⟨gv, hm | ⟨_, hi2⟩, ht, hi⟩
    · exact Or.inl ⟨gv, hm, ht, hi⟩
    · exact Or.inr (by rw [← hi, hi2])
  · rintro (⟨gv, hm, ht, hi⟩ | hji)
    · exact ⟨gv, Or.inl hm, ht, hi⟩
    · exact ⟨⟨c.DETECT_FLOWBITS, i⟩, Or.inr ⟨rfl, rfl⟩, rfl, hji.symm⟩

theorem FlowBitGet_FlowBitToggle (c : DetectConsts) (f : Flow) (i j : Nat) :
    FlowBitGet c (FlowBitToggle c f i) j =
      if j = i then !FlowBitGet c f i else FlowBitGet c f j := by
  unfold FlowBitToggle
  by_cases hji : j = i
  · subst hji
    cases h : FlowBitGet c f j <;> simp [h, FlowBitGet_FlowBitUnset, FlowBitGet_FlowBitSet_other]
  · cases h : FlowBitGet c f i <;>
      simp [h, hji, FlowBitGet_FlowBitUnset, FlowBitGet_FlowBitSet_other]

theorem FlowBitUnset_of_absent (c : DetectConsts) (f : Flow) (idx : Nat)
    (h : FlowBitGet c f idx = false) : FlowBitUnset c f idx = f := by
  rw [FlowBitGet_eq_false_iff] at h
  unfold FlowBitUnset
  cases f with
  | mk l =>
    simp only [Flow.mk.injEq]
    rw [List.filter_eq_self]
    intro gv hgv
    exact decide_eq_true (h gv hgv)

theorem FlowMem.write_other (mem : FlowMem) (a b : Nat) (f : Flow) (h : b ≠ a) :
    mem.write a f b = mem b := by
  simp [FlowMem.write, h]

/-- The evaluator on a packet with a flow, for each of the five commands. -/
theorem DetectFlowbitMatch_run (c : DetectConsts) (mem : FlowMem) (p : Packet)
    (m : SigMatch) (f i : Nat) (cmd : DetectFlowbitsCmd) (hp : p.flow = some f)
    (hm : m.ctx = some { idx := i, cmd := cmd }) :
    DetectFlowbitMatch c mem p m =
      match cmd with
      | DETECT_FLOWBITS_CMD_ISSET => (FlowBitIsset c (mem f) i, mem)
      | DETECT_FLOWBITS_CMD_ISNOTSET => (FlowBitIsnotset c (mem f) i, mem)
      | DETECT_FLOWBITS_CMD_SET => (1, mem.write f (FlowBitSet c (mem f) i))
      | DETECT_FLOWBITS_CMD_UNSET => (1, mem.write f (FlowBitUnset c (mem f) i))
      | DETECT_FLOWBITS_CMD_TOGGLE => (1, mem.write f (FlowBitToggle c (mem f) i))
      | _ => (0, mem) := by
  cases cmd <;>
    simp [DetectFlowbitMatch, hm, DetectFlowbitMatchIsset, DetectFlowbitMatchIsnotset,
      DetectFlowbitMatchSet, DetectFlowbitMatchUnset, DetectFlowbitMatchToggle, hp]

theorem FlowMem.write_self (mem : FlowMem) (a : Nat) : mem.write a (mem a) = mem := by
  funext b
  by_cases h : b = a
  · simp [FlowMem.write, h]
  · simp [FlowMem.write, h]

/-- C11: for every packet with a flow, every prior store and every index `i`,
`DetectFlowbitMatch` with an Unset instruction for `i` returns 1 (match), and
afterwards the store of the packet's flow holds no record of the flowbits kind with
index `i`; when it held none beforehand, the flow memory is left as it was. -/
theorem DetectFlowbitMatch_unset_removes (c : DetectConsts) (mem : FlowMem) (p : Packet)
    (m : SigMatch) (f : Nat) (i : Nat) (hp : p.flow = some f)
    (hm : m.ctx = some { idx := i, cmd := DETECT_FLOWBITS_CMD_UNSET }) :
    (DetectFlowbitMatch c mem p m).1 = 1 ∧
      (∀ gv ∈ ((DetectFlowbitMatch c mem p m).2 f).flowvar,
        ¬ (gv.type = c.DETECT_FLOWBITS ∧ gv.idx = i)) ∧
      ((∀ gv ∈ (mem f).flowvar, ¬ (gv.type = c.DETECT_FLOWBITS ∧ gv.idx = i)) →
        (DetectFlowbitMatch c mem p m).2 = mem) := by
  rw [DetectFlowbitMatch_run c mem p m f i _ hp hm]
  refine ⟨rfl, ?_, ?_⟩
  · intro gv hgv
    simp only [FlowMem.write_same] at hgv
    exact ((mem_FlowBitUnset c (mem f) i gv).1 hgv).2
  · intro habs
    have h := (FlowBitGet_eq_false_iff c (mem f) i).2 habs
    simp only [FlowBitUnset_of_absent c (mem f) i h, FlowMem.write_self]

/-- The runs of C11 on a store that holds the flag next to a record of another kind
and a flag of another index, and on a store that does not hold the flag. -/
theorem DetectFlowbitMatch_unset_removes_witness :
    ((DetectFlowbitMatch exampleConsts (fun _ => { flowvar := [⟨2, 5⟩, ⟨7, 5⟩, ⟨7, 6⟩] })
        { flow := some 0 }
        { type := 7, ctx := some { idx := 5, cmd := DETECT_FLOWBITS_CMD_UNSET } }).1 = 1 ∧
      ((DetectFlowbitMatch exampleConsts (fun _ => { flowvar := [⟨2, 5⟩, ⟨7, 5⟩, ⟨7, 6⟩] })
        { flow := some 0 }
        { type := 7, ctx := some { idx := 5, cmd := DETECT_FLOWBITS_CMD_UNSET } }).2 0).flowvar
        = [⟨2, 5⟩, ⟨7, 6⟩]) ∧
    (DetectFlowbitMatch exampleConsts (fun _ => { flowvar := [⟨2, 5⟩, ⟨7, 6⟩] })
        { flow := some 0 }
        { type := 7, ctx := some { idx := 5, cmd := DETECT_FLOWBITS_CMD_UNSET } }).2
      = (fun _ => { flowvar := [⟨2, 5⟩, ⟨7, 6⟩] }) :=
  ⟨⟨(DetectFlowbitMatch_unset_removes exampleConsts
        (fun _ => { flowvar := [⟨2, 5⟩, ⟨7, 5⟩, ⟨7, 6⟩] }) { flow := some 0 }
        { type := 7, ctx := some { idx := 5, cmd := DETECT_FLOWBITS_CMD_UNSET } } 0 5 rfl rfl).1,
      by decide⟩,
    (DetectFlowbitMatch_unset_removes exampleConsts
        (fun _ => { flowvar := [⟨2, 5⟩, ⟨7, 6⟩] }) { flow := some 0 }
        { type := 7, ctx := some { idx := 5, cmd := DETECT_FLOWBITS_CMD_UNSET } } 0 5 rfl rfl).2.2
      (by decide)⟩

/-- C12: for every packet with a flow, every prior store and every index `i`,
`DetectFlowbitMatch` with a Toggle instruction for `i` returns 1 (match) and flips
the flag: the store of the packet's flow holds a flowbits record for `i` afterwards
iff it held none before. In particular, after a Set for `i` and then a Toggle for
`i` on packets of the same flow, the store holds no flowbits record for `i`. -/
theorem DetectFlowbitMatch_toggle_flips (c : DetectConsts) (mem : FlowMem) (p : Packet)
    (m : SigMatch) (f : Nat) (i : Nat) (hp : p.flow = some f)
    (hm : m.ctx = some { idx := i, cmd := DETECT_FLOWBITS_CMD_TOGGLE }) :
    (DetectFlowbitMatch c mem p m).1 = 1 ∧
      ((∃ gv ∈ ((DetectFlowbitMatch c mem p m).2 f).flowvar,
          gv.type = c.DETECT_FLOWBITS ∧ gv.idx = i) ↔
        ¬ ∃ gv ∈ (mem f).flowvar, gv.type = c.DETECT_FLOWBITS ∧ gv.idx = i) ∧
      ∀ (p1 : Packet) (m1 : SigMatch), p1.flow = some f →
        m1.ctx = some { idx := i, cmd := DETECT_FLOWBITS_CMD_SET } →
        (DetectFlowbitMatch c (DetectFlowbitMatch c mem p1 m1).2 p m).1 = 1 ∧
          ∀ gv ∈ ((DetectFlowbitMatch c (DetectFlowbitMatch c mem p1 m1).2 p m).2 f).flowvar,
            ¬ (gv.type = c.DETECT_FLOWBITS ∧ gv.idx = i) := by
  have flip : ∀ mem0 : FlowMem,
      FlowBitGet c ((DetectFlowbitMatch c mem0 p m).2 f) i = !FlowBitGet c (mem0 f) i := by
    intro mem0
    rw [DetectFlowbitMatch_run c mem0 p m f i _ hp hm]
    simp only [FlowMem.write_same, FlowBitGet_FlowBitToggle, if_true]
  refine ⟨?_, ?_, ?_⟩
  · rw [DetectFlowbitMatch_run c mem p m f i _ hp hm]
  · rw [← FlowBitGet_iff, ← FlowBitGet_iff, flip mem]
    simp
  · intro p1 m1 hp1 hm1
    refine ⟨?_, ?_⟩
    · rw [DetectFlowbitMatch_run c _ p m f i _ hp hm]
    · rw [← FlowBitGet_eq_false_iff, flip,
        DetectFlowbitMatch_run c mem p1 m1 f i _ hp1 hm1]
      simp only [FlowMem.write_same, FlowBitGet_FlowBitSet, Bool.not_true]

/-- The runs of C12: a Toggle on a store without the flag adds its record, and a
Set followed by a Toggle on the empty store, the rules of `FlowBitsTestSig08`,
leaves the store empty. -/
theorem DetectFlowbitMatch_toggle_flips_witness :
    ((DetectFlowbitMatch exampleConsts (fun _ => { flowvar := [⟨2, 5⟩] }) { flow := some 0 }
        { type := 7, ctx := some { idx := 5, cmd := DETECT_FLOWBITS_CMD_TOGGLE } }).1 = 1 ∧
      ((DetectFlowbitMatch exampleConsts (fun _ => { flowvar := [⟨2, 5⟩] }) { flow := some 0 }
        { type := 7, ctx := some { idx := 5, cmd := DETECT_FLOWBITS_CMD_TOGGLE } }).2 0).flowvar
        = [⟨2, 5⟩, ⟨7, 5⟩]) ∧
    ((DetectFlowbitMatch exampleConsts
        (DetectFlowbitMatch exampleConsts (fun _ => { flowvar := [] }) { flow := some 0 }
          { type := 7, ctx := some { idx := 5, cmd := DETECT_FLOWBITS_CMD_SET } }).2
        { flow := some 0 }
        { type := 7, ctx := some { idx := 5, cmd := DETECT_FLOWBITS_CMD_TOGGLE } }).2 0).flowvar
      = [] :=
  ⟨⟨(DetectFlowbitMatch_toggle_flips exampleConsts (fun _ => { flowvar := [⟨2, 5⟩] })
        { flow := some 0 }
        { type := 7, ctx := some { idx := 5, cmd := DETECT_FLOWBITS_CMD_TOGGLE } } 0 5 rfl rfl).1,
      by decide⟩,
    by decide⟩

/-- C13: for every packet with a flow, every store and every index `i`,
`DetectFlowbitMatch` with an IsSet instruction for `i` returns 1 (match) if and only
if the store of the packet's flow holds a record of the flowbits kind with index
`i`, returns 0 otherwise, and leaves the flow memory as it was. -/
theorem DetectFlowbitMatch_isset_tests (c : DetectConsts) (mem : FlowMem) (p : Packet)
    (m : SigMatch) (f : Nat) (i : Nat) (hp : p.flow = some f)
    (hm : m.ctx = some { idx := i, cmd := DETECT_FLOWBITS_CMD_ISSET }) :
    ((DetectFlowbitMatch c mem p m).1 = 1 ↔
        ∃ gv ∈ (mem f).flowvar, gv.type = c.DETECT_FLOWBITS ∧ gv.idx = i) ∧
      ((DetectFlowbitMatch c mem p m).1 = 1 ∨ (DetectFlowbitMatch c mem p m).1 = 0) ∧
      (DetectFlowbitMatch c mem p m).2 = mem := by
  rw [DetectFlowbitMatch_run c mem p m f i _ hp hm, ← FlowBitGet_iff]
  unfold FlowBitIsset
  cases h : FlowBitGet c (mem f) i <;> simp

/-- The runs of C13 on a store that holds the flag (result 1) and on a store that
holds only a record of another kind with the same index (result 0). -/
theorem DetectFlowbitMatch_isset_tests_witness :
    DetectFlowbitMatch exampleConsts (fun _ => { flowvar := [⟨7, 5⟩] }) { flow := some 0 }
        { type := 7, ctx := some { idx := 5, cmd := DETECT_FLOWBITS_CMD_ISSET } }
      = (1, fun _ => { flowvar := [⟨7, 5⟩] }) ∧
    DetectFlowbitMatch exampleConsts (fun _ => { flowvar := [⟨2, 5⟩] }) { flow := some 0 }
        { type := 7, ctx := some { idx := 5, cmd := DETECT_FLOWBITS_CMD_ISSET } }
      = (0, fun _ => { flowvar := [⟨2, 5⟩] }) :=
  ⟨Prod.ext
      ((DetectFlowbitMatch_isset_tests exampleConsts (fun _ => { flowvar := [⟨7, 5⟩] })
        { flow := some 0 }
        { type := 7, ctx := some { idx := 5, cmd := DETECT_FLOWBITS_CMD_ISSET } } 0 5 rfl
        rfl).1.2 (by decide))
      (DetectFlowbitMatch_isset_tests exampleConsts (fun _ => { flowvar := [⟨7, 5⟩] })
        { flow := some 0 }
        { type := 7, ctx := some { idx := 5, cmd := DETECT_FLOWBITS_CMD_ISSET } } 0 5 rfl
        rfl).2.2,
    Prod.ext (by decide)
      (DetectFlowbitMatch_isset_tests exampleConsts (fun _ => { flowvar := [⟨2, 5⟩] })
        { flow := some 0 }
        { type := 7, ctx := some { idx := 5, cmd := DETECT_FLOWBITS_CMD_ISSET } } 0 5 rfl
        rfl).2.2⟩

/-- C14: for every packet with a flow, every store and every index `i`,
`DetectFlowbitMatch` with an IsNotSet instruction for `i` returns 1 (match) if and
only if the store of the packet's flow holds no record of the flowbits kind with
index `i`, returns 0 otherwise, and leaves the flow memory as it was. -/
theorem DetectFlowbitMatch_isnotset_tests (c : DetectConsts) (mem : FlowMem) (p : Packet)
    (m : SigMatch) (f : Nat) (i : Nat) (hp : p.flow = some f)
    (hm : m.ctx = some { idx := i, cmd := DETECT_FLOWBITS_CMD_ISNOTSET }) :
    ((DetectFlowbitMatch c mem p m).1 = 1 ↔
        ∀ gv ∈ (mem f).flowvar, ¬ (gv.type = c.DETECT_FLOWBITS ∧ gv.idx = i)) ∧
      ((DetectFlowbitMatch c mem p m).1 = 1 ∨ (DetectFlowbitMatch c mem p m).1 = 0) ∧
      (DetectFlowbitMatch c mem p m).2 = mem := by
  rw [DetectFlowbitMatch_run c mem p m f i _ hp hm, ← FlowBitGet_eq_false_iff]
  unfold FlowBitIsnotset
  cases h : FlowBitGet c (mem f) i <;> simp

/-- The runs of C14 on a store that holds only a record of another kind with the
same index (result 1) and on a store that holds the flag (result 0). -/
theorem DetectFlowbitMatch_isnotset_tests_witness :
    DetectFlowbitMatch exampleConsts (fun _ => { flowvar := [⟨2, 5⟩] }) { flow := some 0 }
        { type := 7, ctx := some { idx := 5, cmd := DETECT_FLOWBITS_CMD_ISNOTSET } }
      = (1, fun _ => { flowvar := [⟨2, 5⟩] }) ∧
    DetectFlowbitMatch exampleConsts (fun _ => { flowvar := [⟨7, 5⟩] }) { flow := some 0 }
        { type := 7, ctx := some { idx := 5, cmd := DETECT_FLOWBITS_CMD_ISNOTSET } }
      = (0, fun _ => { flowvar := [⟨7, 5⟩] }) :=
  ⟨Prod.ext
      ((DetectFlowbitMatch_isnotset_tests exampleConsts (fun _ => { flowvar := [⟨2, 5⟩] })
        { flow := some 0 }
        { type := 7, ctx := some { idx := 5, cmd := DETECT_FLOWBITS_CMD_ISNOTSET } } 0 5 rfl
        rfl).1.2 (by decide))
      (DetectFlowbitMatch_isnotset_tests exampleConsts (fun _ => { flowvar := [⟨2, 5⟩] })
        { flow := some 0 }
        { type := 7, ctx := some { idx := 5, cmd := DETECT_FLOWBITS_CMD_ISNOTSET } } 0 5 rfl
        rfl).2.2,
    Prod.ext (by decide)
      (DetectFlowbitMatch_isnotset_tests exampleConsts (fun _ => { flowvar := [⟨7, 5⟩] })
        { flow := some 0 }
        { type := 7, ctx := some { idx := 5, cmd := DETECT_FLOWBITS_CMD_ISNOTSET } } 0 5 rfl
        rfl).2.2⟩

theorem match_without_flow (c : DetectConsts) (mem : FlowMem) (p : Packet)
    (m : SigMatch) (h : p.flow = none) :
    DetectFlowbitMatch c mem p m = (0, mem) := by
  unfold DetectFlowbitMatch
  cases m.ctx with
  | none => rfl
  | some fd =>
    simp only []
    split <;>
      simp [DetectFlowbitMatchIsset, DetectFlowbitMatchIsnotset, DetectFlowbitMatchSet,
        DetectFlowbitMatchUnset, DetectFlowbitMatchToggle, h]

/-- C15: for every instruction whose command is none of IsSet, IsNotSet, Set, Unset,
Toggle (the NoAlert code included) and every packet, with or without a flow,
`DetectFlowbitMatch` returns 0 (no match), so not the error code -1 of its header
comment, and leaves the flow memory as it was. -/
theorem DetectFlowbitMatch_unknown_cmd (c : DetectConsts) (mem : FlowMem) (p : Packet)
    (m : SigMatch) (fd : DetectFlowbitsData) (hm : m.ctx = some fd)
    (hcmd : fd.cmd ∉ [DETECT_FLOWBITS_CMD_ISSET, DETECT_FLOWBITS_CMD_ISNOTSET,
      DETECT_FLOWBITS_CMD_SET, DETECT_FLOWBITS_CMD_UNSET, DETECT_FLOWBITS_CMD_TOGGLE]) :
    DetectFlowbitMatch c mem p m = (0, mem) ∧ (DetectFlowbitMatch c mem p m).1 ≠ -1 := by
  have h : DetectFlowbitMatch c mem p m = (0, mem) := by
    unfold DetectFlowbitMatch
    rw [hm]
    cases hc : fd.cmd <;> simp [hc] at hcmd ⊢
  rw [h]
  exact ⟨rfl, by simp⟩

/-- The runs of C15 on an instruction with the NoAlert code and a packet with a
flow, and on an instruction with a code outside the enum and a packet without. -/
theorem DetectFlowbitMatch_unknown_cmd_witness :
    (DetectFlowbitMatch exampleConsts (fun _ => { flowvar := [⟨7, 5⟩] }) { flow := some 0 }
        { type := 7, ctx := some { idx := 5, cmd := DETECT_FLOWBITS_CMD_NOALERT } }).1 = 0 ∧
      (DetectFlowbitMatch exampleConsts (fun _ => { flowvar := [⟨7, 5⟩] }) { flow := none }
        { type := 7, ctx := some { idx := 5, cmd := OTHER 200 } }).1 = 0 :=
  ⟨congrArg Prod.fst
      (DetectFlowbitMatch_unknown_cmd exampleConsts (fun _ => { flowvar := [⟨7, 5⟩] })
        { flow := some 0 }
        { type := 7, ctx := some { idx := 5, cmd := DETECT_FLOWBITS_CMD_NOALERT } }
        { idx := 5, cmd := DETECT_FLOWBITS_CMD_NOALERT } rfl (by decide)).1,
    congrArg Prod.fst
      (DetectFlowbitMatch_unknown_cmd exampleConsts (fun _ => { flowvar := [⟨7, 5⟩] })
        { flow := none } { type := 7, ctx := some { idx := 5, cmd := OTHER 200 } }
        { idx := 5, cmd := OTHER 200 } rfl (by decide)).1⟩

theorem flowbitCount_eq_zero (c : DetectConsts) (f : Flow) (j : Nat) :
    flowbitCount c f j = 0 ↔ FlowBitGet c f j = false := by
  rw [FlowBitGet_eq_false_iff]
  unfold flowbitCount
  rw [List.countP_eq_zero]
  simp

theorem flowbitCount_FlowBitUnset_le (c : DetectConsts) (f : Flow) (i j : Nat) :
    flowbitCount c (FlowBitUnset c f i) j ≤ flowbitCount c f j := by
  unfold flowbitCount FlowBitUnset
  exact (List.filter_sublist _).countP_le _

theorem flowbitCount_FlowBitSet (c : DetectConsts) (f : Flow) (i j : Nat) :
    flowbitCount c (FlowBitSet c f i) j =
      if j = i ∧ FlowBitGet c f i = false then 1 else flowbitCount c f j := by
  unfold FlowBitSet
  cases h : FlowBitGet c f i
  · by_cases hji : j = i
    · subst hji
      have h0 := (flowbitCount_eq_zero c f j).2 h
      unfold flowbitCount at h0 ⊢
      simp only [Bool.false_eq_true, if_false, List.countP_append, h0]
      simp
    · have hij : ¬ i = j := fun e => hji e.symm
      unfold flowbitCount
      simp [List.countP_append, hji, hij]
  · simp

theorem flowbitCount_FlowBitSet_le (c : DetectConsts) (f : Flow) (i j : Nat)
    (h : flowbitCount c f j ≤ 1) : flowbitCount c (FlowBitSet c f i) j ≤ 1 := by
  rw [flowbitCount_FlowBitSet]
  split
  · exact Nat.le_refl 1
  · exact h

theorem flowbitCount_FlowBitToggle_le (c : DetectConsts) (f : Flow) (i j : Nat)
    (h : flowbitCount c f j ≤ 1) : flowbitCount c (FlowBitToggle c f i) j ≤ 1 := by
  unfold FlowBitToggle
  split
  · exact Nat.le_trans (flowbitCount_FlowBitUnset_le c f i j) h
  · exact flowbitCount_FlowBitSet_le c f i j h

theorem FlowBitSet_of_present (c : DetectConsts) (f : Flow) (i : Nat)
    (h : FlowBitGet c f i = true) : FlowBitSet c f i = f := by
  simp [FlowBitSet, h]

theorem FlowBitSet_idem (c : DetectConsts) (f : Flow) (i : Nat) :
    FlowBitSet c (FlowBitSet c f i) i = FlowBitSet c f i :=
  FlowBitSet_of_present c _ i (FlowBitGet_FlowBitSet c f i)

theorem FlowMem.write_write (mem : FlowMem) (a : Nat) (f g : Flow) :
    (mem.write a f).write a g = mem.write a g := by
  funext b
  by_cases h : b = a
  · simp [FlowMem.write, h]
  · simp [FlowMem.write, h]

/-- The flow memory after the evaluator, at an address: the packet's flow rewritten
by the command, every other flow as before. -/
theorem DetectFlowbitMatch_mem (c : DetectConsts) (mem : FlowMem) (p : Packet)
    (m : SigMatch) (g : Nat) :
    (DetectFlowbitMatch c mem p m).2 g = mem g ∨
      ∃ i, p.flow = some g ∧
        ((DetectFlowbitMatch c mem p m).2 g = FlowBitSet c (mem g) i ∨
         (DetectFlowbitMatch c mem p m).2 g = FlowBitUnset c (mem g) i ∨
         (DetectFlowbitMatch c mem p m).2 g = FlowBitToggle c (mem g) i) := by
  cases hctx : m.ctx with
  | none => left; simp [DetectFlowbitMatch, hctx]
  | some fd =>
    cases hp : p.flow with
    | none => left; rw [match_without_flow c mem p m hp]
    | some f =>
      obtain ⟨i, cmd⟩ := fd
      rw [DetectFlowbitMatch_run c mem p m f i cmd hp hctx]
      by_cases hg : g = f
      · subst hg
        cases cmd <;>
          first
          | exact Or.inl rfl
          | exact Or.inr ⟨i, rfl, Or.inl (FlowMem.write_same _ _ _)⟩
          | exact Or.inr ⟨i, rfl, Or.inr (Or.inl (FlowMem.write_same _ _ _))⟩
          | exact Or.inr ⟨i, rfl, Or.inr (Or.inr (FlowMem.write_same _ _ _))⟩
      · left
        cases cmd <;> simp [FlowMem.write_other _ _ _ _ hg]

/-- C18: the flow variable store keeps at most one flag record per index: if the
store of a flow holds at most one flowbits record for every index, it still does
after `DetectFlowbitMatch` with any instruction on any packet; and under that
condition two evaluations in a row of a Set for `i` leave the same flow memory as
one, with exactly one flowbits record for `i` in the store. -/
theorem DetectFlowbitMatch_keeps_one_per_index (c : DetectConsts) (mem : FlowMem)
    (p : Packet) (m : SigMatch) (f : Nat)
    (hinv : ∀ j, flowbitCount c (mem f) j ≤ 1) :
    (∀ j, flowbitCount c ((DetectFlowbitMatch c mem p m).2 f) j ≤ 1) ∧
      ∀ i, p.flow = some f → m.ctx = some { idx := i, cmd := DETECT_FLOWBITS_CMD_SET } →
        (DetectFlowbitMatch c (DetectFlowbitMatch c mem p m).2 p m).2
            = (DetectFlowbitMatch c mem p m).2 ∧
          flowbitCount c ((DetectFlowbitMatch c (DetectFlowbitMatch c mem p m).2 p m).2 f) i
            = 1 := by
  refine ⟨?_, ?_⟩
  · intro j
    rcases DetectFlowbitMatch_mem c mem p m f with h | ⟨i, -, h | h | h⟩
    · rw [h]; exact hinv j
    · rw [h]; exact flowbitCount_FlowBitSet_le c (mem f) i j (hinv j)
    · rw [h]; exact Nat.le_trans (flowbitCount_FlowBitUnset_le c (mem f) i j) (hinv j)
    · rw [h]; exact flowbitCount_FlowBitToggle_le c (mem f) i j (hinv j)
  · intro i hp hm
    have h1 := DetectFlowbitMatch_run c mem p m f i _ hp hm
    have h2 := DetectFlowbitMatch_run c (DetectFlowbitMatch c mem p m).2 p m f i _ hp hm
    simp only at h1 h2
    have hsame : (DetectFlowbitMatch c (DetectFlowbitMatch c mem p m).2 p m).2
        = (DetectFlowbitMatch c mem p m).2 := by
      rw [h2, h1]
      simp only [FlowMem.write_same, FlowBitSet_idem, FlowMem.write_write]
    refine ⟨hsame, ?_⟩
    rw [hsame, h1]
    simp only [FlowMem.write_same]
    have hle := flowbitCount_FlowBitSet_le c (mem f) i i (hinv i)
    have hne : flowbitCount c (FlowBitSet c (mem f) i) i ≠ 0 := by
      intro h0
      rw [flowbitCount_eq_zero, FlowBitGet_FlowBitSet] at h0
      exact Bool.noConfusion h0
    omega

/-- The run of C18 on a store with a record of another kind and the flag 6: after
one Set for 5 and after two, the store holds the same three records, one of them
the flag 5. -/
theorem DetectFlowbitMatch_keeps_one_per_index_witness :
    (DetectFlowbitMatch exampleConsts
        (DetectFlowbitMatch exampleConsts (fun _ => { flowvar := [⟨2, 5⟩, ⟨7, 6⟩] })
          { flow := some 0 }
          { type := 7, ctx := some { idx := 5, cmd := DETECT_FLOWBITS_CMD_SET } }).2
        { flow := some 0 }
        { type := 7, ctx := some { idx := 5, cmd := DETECT_FLOWBITS_CMD_SET } }).2
      = (DetectFlowbitMatch exampleConsts (fun _ => { flowvar := [⟨2, 5⟩, ⟨7, 6⟩] })
          { flow := some 0 }
          { type := 7, ctx := some { idx := 5, cmd := DETECT_FLOWBITS_CMD_SET } }).2 ∧
    ((DetectFlowbitMatch exampleConsts (fun _ => { flowvar := [⟨2, 5⟩, ⟨7, 6⟩] })
        { flow := some 0 }
        { type := 7, ctx := some { idx := 5, cmd := DETECT_FLOWBITS_CMD_SET } }).2 0).flowvar
      = [⟨2, 5⟩, ⟨7, 6⟩, ⟨7, 5⟩] :=
  ⟨((DetectFlowbitMatch_keeps_one_per_index exampleConsts
        (fun _ => { flowvar := [⟨2, 5⟩, ⟨7, 6⟩] }) { flow := some 0 }
        { type := 7, ctx := some { idx := 5, cmd := DETECT_FLOWBITS_CMD_SET } } 0
        (fun j => by
          simp only [flowbitCount, exampleConsts, List.countP_cons, List.countP_nil]
          split <;> simp)).2 5 rfl rfl).1,
    by decide⟩

/-- C19: Toggle is an involution on the flag: for every packet with a flow, every
store and every index `i`, two evaluations in a row of a Toggle instruction for `i`
both return 1 (match), and the store of the packet's flow holds a flowbits record
for `i` afterwards iff it held one before the first (for a flag that was set and for
one that was not). -/
theorem DetectFlowbitMatch_toggle_twice (c : DetectConsts) (mem : FlowMem) (p : Packet)
    (m : SigMatch) (f : Nat) (i : Nat) (hp : p.flow = some f)
    (hm : m.ctx = some { idx := i, cmd := DETECT_FLOWBITS_CMD_TOGGLE }) :
    (DetectFlowbitMatch c mem p m).1 = 1 ∧
      (DetectFlowbitMatch c (DetectFlowbitMatch c mem p m).2 p m).1 = 1 ∧
      ((∃ gv ∈ ((DetectFlowbitMatch c (DetectFlowbitMatch c mem p m).2 p m).2 f).flowvar,
          gv.type = c.DETECT_FLOWBITS ∧ gv.idx = i) ↔
        ∃ gv ∈ (mem f).flowvar, gv.type = c.DETECT_FLOWBITS ∧ gv.idx = i) := by
  have h1 := DetectFlowbitMatch_run c mem p m f i _ hp hm
  have h2 := DetectFlowbitMatch_run c (DetectFlowbitMatch c mem p m).2 p m f i _ hp hm
  simp only at h1 h2
  refine ⟨by rw [h1], by rw [h2], ?_⟩
  rw [← FlowBitGet_iff, ← FlowBitGet_iff, h2, h1]
  simp only [FlowMem.write_same, FlowBitGet_FlowBitToggle, if_true, Bool.not_not]

/-- The runs of C19 from a store that holds the flag and from one that does not:
both evaluations return 1, and after the second the flag is as at the start. -/
theorem DetectFlowbitMatch_toggle_twice_witness :
    ((DetectFlowbitMatch exampleConsts (fun _ => { flowvar := [⟨7, 5⟩, ⟨2, 5⟩] })
        { flow := some 0 }
        { type := 7, ctx := some { idx := 5, cmd := DETECT_FLOWBITS_CMD_TOGGLE } }).1 = 1 ∧
      ((DetectFlowbitMatch exampleConsts
        (DetectFlowbitMatch exampleConsts (fun _ => { flowvar := [⟨7, 5⟩, ⟨2, 5⟩] })
          { flow := some 0 }
          { type := 7, ctx := some { idx := 5, cmd := DETECT_FLOWBITS_CMD_TOGGLE } }).2
        { flow := some 0 }
        { type := 7, ctx := some { idx := 5, cmd := DETECT_FLOWBITS_CMD_TOGGLE } }).2 0).flowvar
        = [⟨2, 5⟩, ⟨7, 5⟩]) ∧
    ((DetectFlowbitMatch exampleConsts (fun _ => { flowvar := [⟨2, 5⟩] })
        { flow := some 0 }
        { type := 7, ctx := some { idx := 5, cmd := DETECT_FLOWBITS_CMD_TOGGLE } }).1 = 1 ∧
      ((DetectFlowbitMatch exampleConsts
        (DetectFlowbitMatch exampleConsts (fun _ => { flowvar := [⟨2, 5⟩] })
          { flow := some 0 }
          { type := 7, ctx := some { idx := 5, cmd := DETECT_FLOWBITS_CMD_TOGGLE } }).2
        { flow := some 0 }
        { type := 7, ctx := some { idx := 5, cmd := DETECT_FLOWBITS_CMD_TOGGLE } }).2 0).flowvar
        = [⟨2, 5⟩]) :=
  ⟨⟨(DetectFlowbitMatch_toggle_twice exampleConsts
        (fun _ => { flowvar := [⟨7, 5⟩, ⟨2, 5⟩] }) { flow := some 0 }
        { type := 7, ctx := some { idx := 5, cmd := DETECT_FLOWBITS_CMD_TOGGLE } } 0 5 rfl
        rfl).1, by decide⟩,
    ⟨(DetectFlowbitMatch_toggle_twice exampleConsts
        (fun _ => { flowvar := [⟨2, 5⟩] }) { flow := some 0 }
        { type := 7, ctx := some { idx := 5, cmd := DETECT_FLOWBITS_CMD_TOGGLE } } 0 5 rfl
        rfl).1, by decide⟩⟩

theorem otherVars_FlowBitSet (c : DetectConsts) (f : Flow) (i : Nat) :
    otherVars c (FlowBitSet c f i) = otherVars c f := by
  unfold FlowBitSet
  split
  · rfl
  · simp [otherVars]

theorem otherVars_FlowBitUnset (c : DetectConsts) (f : Flow) (i : Nat) :
    otherVars c (FlowBitUnset c f i) = otherVars c f := by
  unfold otherVars FlowBitUnset
  simp only [List.filter_filter]
  apply List.filter_congr
  intro gv _
  by_cases h : gv.type = c.DETECT_FLOWBITS <;> simp [h]

theorem otherVars_FlowBitToggle (c : DetectConsts) (f : Flow) (i : Nat) :
    otherVars c (FlowBitToggle c f i) = otherVars c f := by
  unfold FlowBitToggle
  split
  · exact otherVars_FlowBitUnset c f i
  · exact otherVars_FlowBitSet c f i

/-- C20: a mutation touches one flag of one flow: `DetectFlowbitMatch` with a Set,
Unset or Toggle instruction for `i` on a packet of the flow at `f` leaves the store
of every other flow as it was, and in the store of the flow at `f` leaves the
presence of the flag for every index `j` other than `i`, and the records of every
kind other than flowbits, as they were. -/
theorem DetectFlowbitMatch_frame (c : DetectConsts) (mem : FlowMem) (p : Packet)
    (m : SigMatch) (f : Nat) (i : Nat) (cmd : DetectFlowbitsCmd) (hp : p.flow = some f)
    (hm : m.ctx = some { idx := i, cmd := cmd })
    (hcmd : cmd = DETECT_FLOWBITS_CMD_SET ∨ cmd = DETECT_FLOWBITS_CMD_UNSET ∨
      cmd = DETECT_FLOWBITS_CMD_TOGGLE) :
    (∀ f2, f2 ≠ f → (DetectFlowbitMatch c mem p m).2 f2 = mem f2) ∧
      (∀ j, j ≠ i →
        ((∃ gv ∈ ((DetectFlowbitMatch c mem p m).2 f).flowvar,
            gv.type = c.DETECT_FLOWBITS ∧ gv.idx = j) ↔
          ∃ gv ∈ (mem f).flowvar, gv.type = c.DETECT_FLOWBITS ∧ gv.idx = j)) ∧
      otherVars c ((DetectFlowbitMatch c mem p m).2 f) = otherVars c (mem f) := by
  have hrun := DetectFlowbitMatch_run c mem p m f i cmd hp hm
  rcases hcmd with h | h | h <;> subst h <;> simp only at hrun <;> rw [hrun] <;>
    refine ⟨fun f2 hf2 => FlowMem.write_other _ _ _ _ hf2, fun j hj => ?_, ?_⟩
  · rw [← FlowBitGet_iff, ← FlowBitGet_iff]
    simp only [FlowMem.write_same, FlowBitGet_FlowBitSet_other]
    simp [hj]
  · simp only [FlowMem.write_same, otherVars_FlowBitSet]
  · rw [← FlowBitGet_iff, ← FlowBitGet_iff]
    simp only [FlowMem.write_same, FlowBitGet_FlowBitUnset]
    simp [hj]
  · simp only [FlowMem.write_same, otherVars_FlowBitUnset]
  · rw [← FlowBitGet_iff, ← FlowBitGet_iff]
    simp only [FlowMem.write_same, FlowBitGet_FlowBitToggle]
    simp [hj]
  · simp only [FlowMem.write_same, otherVars_FlowBitToggle]

/-- The run of C20 with two flows that both hold the flag 5: an Unset for 5 on a
packet of the flow at 0 leaves the flow at 1 as it was, and in the flow at 0 leaves
the flag 6 and the record of another kind. -/
theorem DetectFlowbitMatch_frame_witness :
    (DetectFlowbitMatch exampleConsts
        (fun a => if a = 0 then { flowvar := [⟨7, 5⟩, ⟨2, 5⟩, ⟨7, 6⟩] }
          else { flowvar := [⟨7, 5⟩] })
        { flow := some 0 }
        { type := 7, ctx := some { idx := 5, cmd := DETECT_FLOWBITS_CMD_UNSET } }).2 1
      = { flowvar := [⟨7, 5⟩] } ∧
    ((DetectFlowbitMatch exampleConsts
        (fun a => if a = 0 then { flowvar := [⟨7, 5⟩, ⟨2, 5⟩, ⟨7, 6⟩] }
          else { flowvar := [⟨7, 5⟩] })
        { flow := some 0 }
        { type := 7, ctx := some { idx := 5, cmd := DETECT_FLOWBITS_CMD_UNSET } }).2 0).flowvar
      = [⟨2, 5⟩, ⟨7, 6⟩] :=
  ⟨(DetectFlowbitMatch_frame exampleConsts
        (fun a => if a = 0 then { flowvar := [⟨7, 5⟩, ⟨2, 5⟩, ⟨7, 6⟩] }
          else { flowvar := [⟨7, 5⟩] })
        { flow := some 0 }
        { type := 7, ctx := some { idx := 5, cmd := DETECT_FLOWBITS_CMD_UNSET } } 0 5
        DETECT_FLOWBITS_CMD_UNSET rfl rfl (Or.inr (Or.inl rfl))).1 1 (by decide),
    by decide⟩

/-! ## Lemmas on the name table -/

theorem VariableNameGetIdx_found (d : DetectEngineCtx) (n : List Char) (t : Nat)
    (e : VariableName)
    (h : d.variable_names.find? (fun e => e.name = n ∧ e.type = t) = some e) :
    VariableNameGetIdx d n t = (e.idx, d) := by
  unfold VariableNameGetIdx
  rw [h]

theorem VariableNameGetIdx_fresh (d : DetectEngineCtx) (n : List Char) (t : Nat)
    (h : d.variable_names.find? (fun e => e.name = n ∧ e.type = t) = none) :
    VariableNameGetIdx d n t =
      (d.variable_names_idx + 1,
        { variable_names := d.variable_names ++ [⟨n, t, d.variable_names_idx + 1⟩],
          variable_names_idx := d.variable_names_idx + 1 }) := by
  unfold VariableNameGetIdx
  rw [h]

theorem nameIdx?_VariableNameGetIdx (d : DetectEngineCtx) (n : List Char) (t : Nat) :
    nameIdx? (VariableNameGetIdx d n t).2 n t = some (VariableNameGetIdx d n t).1 := by
  cases h : d.variable_names.find? (fun e => e.name = n ∧ e.type = t) with
  | some e =>
    rw [VariableNameGetIdx_found d n t e h]
    unfold nameIdx?
    rw [h]
    rfl
  | none =>
    rw [VariableNameGetIdx_fresh d n t h]
    unfold nameIdx?
    simp only
    rw [List.find?_append, h]
    simp [List.find?]

theorem VariableNameGetIdx_of_nameIdx? (d : DetectEngineCtx) (n : List Char) (t i : Nat)
    (h : nameIdx? d n t = some i) :
    VariableNameGetIdx d n t = (i, d) := by
  unfold nameIdx? at h
  unfold VariableNameGetIdx
  cases hf : d.variable_names.find? (fun e => e.name = n ∧ e.type = t) with
  | some e =>
    rw [hf] at h
    simp only [Option.map_some', Option.some.injEq] at h
    simp [h]
  | none =>
    rw [hf] at h
    simp at h

theorem VariableNameGetIdx_extends (d : DetectEngineCtx) (n : List Char) (t : Nat) :
    ∃ suf, (VariableNameGetIdx d n t).2.variable_names = d.variable_names ++ suf := by
  unfold VariableNameGetIdx
  cases h : d.variable_names.find? (fun e => e.name = n ∧ e.type = t) with
  | some e => exact ⟨[], by simp⟩
  | none => exact ⟨_, rfl⟩

theorem nameIdx?_of_extends (d d2 : DetectEngineCtx) (n : List Char) (t i : Nat)
    (hext : ∃ suf, d2.variable_names = d.variable_names ++ suf)
    (h : nameIdx? d n t = some i) : nameIdx? d2 n t = some i := by
  obtain ⟨suf, hs⟩ := hext
  unfold nameIdx? at h ⊢
  rw [hs, List.find?_append]
  cases hf : d.variable_names.find? (fun e => e.name = n ∧ e.type = t) with
  | some e =>
    rw [hf] at h
    simpa using h
  | none =>
    rw [hf] at h
    simp at h

theorem nameIdx?_entry (d : DetectEngineCtx) (n : List Char) (t i : Nat)
    (h : nameIdx? d n t = some i) :
    ∃ e ∈ d.variable_names, e.name = n ∧ e.type = t ∧ e.idx = i := by
  unfold nameIdx? at h
  cases hf : d.variable_names.find? (fun e => e.name = n ∧ e.type = t) with
  | some e =>
    rw [hf] at h
    have hp := List.find?_some hf
    have hm := List.mem_of_find?_eq_some hf
    simp only [decide_eq_true_eq] at hp
    exact ⟨e, hm, hp.1, hp.2, by simpa using h⟩
  | none =>
    rw [hf] at h
    simp at h

theorem NameTableWf_init : NameTableWf DetectEngineCtxInit := by
  simp [NameTableWf, DetectEngineCtxInit]

theorem NameTableWf_VariableNameGetIdx (d : DetectEngineCtx) (n : List Char) (t : Nat)
    (h : NameTableWf d) : NameTableWf (VariableNameGetIdx d n t).2 := by
  unfold VariableNameGetIdx
  cases hf : d.variable_names.find? (fun e => e.name = n ∧ e.type = t) with
  | some e => exact h
  | none =>
    obtain ⟨hb, hinj⟩ := h
    simp only
    refine ⟨?_, ?_⟩
    · intro e he
      simp only [List.mem_append, List.mem_singleton] at he
      rcases he with he | he
      · have := hb e he
        exact ⟨this.1, Nat.le_succ_of_le this.2⟩
      · subst he
        exact ⟨Nat.succ_le_succ (Nat.zero_le _), Nat.le_refl _⟩
    · intro e1 he1 e2 he2 hidx
      simp only [List.mem_append, List.mem_singleton] at he1 he2
      rcases he1 with he1 | he1 <;> rcases he2 with he2 | he2
      · exact hinj e1 he1 e2 he2 hidx
      · subst he2
        have := (hb e1 he1).2
        simp only at hidx
        omega
      · subst he1
        have := (hb e2 he2).2
        simp only at hidx
        omega
      · subst he1; subst he2
        exact ⟨rfl, rfl⟩

/-- The context a call of the compiler leaves: the one it was given, or the one
`VariableNameGetIdx` leaves for some name of the flowbits class. -/
theorem ctxAfter_cases (c : DetectConsts) (a : Alloc) (d : DetectEngineCtx) (s : Signature)
    (rawstr : List Char) :
    ctxAfter c a d s rawstr = d ∨
      ∃ n, ctxAfter c a d s rawstr = (VariableNameGetIdx d n c.DETECT_FLOWBITS).2 := by
  have attach : ∀ cmd (nm : Option (List Char)),
      (setupAttach c a d s cmd nm).2.1 = d ∨
        ∃ n, (setupAttach c a d s cmd nm).2.1 = (VariableNameGetIdx d n c.DETECT_FLOWBITS).2 := by
    intro cmd nm
    unfold setupAttach
    cases a.malloc <;> cases a.SigMatchAlloc <;> cases nm <;>
      first
      | exact Or.inl rfl
      | exact Or.inr ⟨_, rfl⟩
  unfold ctxAfter
  rw [DetectFlowbitSetup_eq]
  split
  · exact Or.inl rfl
  split
  · exact Or.inl rfl
  split
  · exact Or.inl rfl
  cases hc : fb_cmd_of (cmdToken rawstr) with
  | none => exact Or.inl rfl
  | some cmd =>
    simp only
    unfold setupSwitch
    cases cmd <;> cases hn : nameToken rawstr <;>
      first
      | exact Or.inl rfl
      | exact attach _ _
      | (simp only [Option.isSome_some, Option.isSome_none, Option.isNone_some,
          Option.isNone_none, if_true, if_false, Bool.false_eq_true]
         first
         | exact Or.inl rfl
         | exact attach _ _)

theorem ctxAfter_extends (c : DetectConsts) (a : Alloc) (d : DetectEngineCtx) (s : Signature)
    (rawstr : List Char) :
    ∃ suf, (ctxAfter c a d s rawstr).variable_names = d.variable_names ++ suf := by
  rcases ctxAfter_cases c a d s rawstr with h | ⟨n, h⟩
  · exact ⟨[], by rw [h]; simp⟩
  · rw [h]; exact VariableNameGetIdx_extends d n _

theorem NameTableWf_ctxAfter (c : DetectConsts) (a : Alloc) (d : DetectEngineCtx)
    (s : Signature) (rawstr : List Char) (h : NameTableWf d) :
    NameTableWf (ctxAfter c a d s rawstr) := by
  rcases ctxAfter_cases c a d s rawstr with h1 | ⟨n, h1⟩
  · rw [h1]; exact h
  · rw [h1]; exact NameTableWf_VariableNameGetIdx d n _ h

theorem compileCalls_extends (c : DetectConsts) (calls : List SetupCall) :
    ∀ d, ∃ suf, (compileCalls c d calls).variable_names = d.variable_names ++ suf := by
  induction calls with
  | nil => intro d; exact ⟨[], by simp [compileCalls]⟩
  | cons x xs ih =>
    intro d
    obtain ⟨s1, h1⟩ := ctxAfter_extends c x.a d x.s x.rawstr
    obtain ⟨s2, h2⟩ := ih (ctxAfter c x.a d x.s x.rawstr)
    exact ⟨s1 ++ s2, by simp only [compileCalls]; rw [h2, h1, List.append_assoc]⟩

theorem NameTableWf_compileCalls (c : DetectConsts) (calls : List SetupCall) :
    ∀ d, NameTableWf d → NameTableWf (compileCalls c d calls) := by
  induction calls with
  | nil => intro d h; exact h
  | cons x xs ih =>
    intro d h
    exact ih _ (NameTableWf_ctxAfter c x.a d x.s x.rawstr h)

theorem lastSigMatch_SigMatchAppend (s : Signature) (sm : SigMatch) :
    lastSigMatch (SigMatchAppend s sm) = sm := by
  simp [lastSigMatch, SigMatchAppend]

/-- A successful call of the compiler on `k,n`, for one of the five keywords that
take a name: what it returns, whatever the allocator was asked. -/
theorem setup_named_of_success (c : DetectConsts) (a : Alloc) (d : DetectEngineCtx)
    (s : Signature) (k : List Char) (cmd : DetectFlowbitsCmd) (n : List Char)
    (hk : (k, cmd) ∈ namedKeywords)
    (h : (DetectFlowbitSetup c a d s (k ++ ',' :: n)).1 = 0) :
    DetectFlowbitSetup c a d s (k ++ ',' :: n) =
      (0, (VariableNameGetIdx d ((subjectOf n).takeWhile isDotChar) c.DETECT_FLOWBITS).2,
        SigMatchAppend s
          { type := c.DETECT_FLOWBITS,
            ctx := some
              { idx := (VariableNameGetIdx d ((subjectOf n).takeWhile isDotChar)
                  c.DETECT_FLOWBITS).1,
                cmd := cmd } }) := by
  obtain ⟨hch, hk0, hcmd, -, hsw⟩ := namedKeywords_spec k cmd hk
  obtain ⟨ht, hn⟩ := tokens_of_word_comma k n hch hk0
  rw [DetectFlowbitSetup_eq, ht, hn] at h ⊢
  obtain ⟨b1, b2, b3, b4⟩ := a
  cases b1 <;> cases b2 <;> cases b3 <;> cases b4 <;>
    simp [hk0, hcmd, hsw, setupAttach] at h ⊢

theorem name_of_accepted (k : List Char) (cmd : DetectFlowbitsCmd) (n : List Char)
    (hk : (k, cmd) ∈ namedKeywords) (hn : fb_name_of (k ++ ',' :: n) = some n) :
    (subjectOf n).takeWhile isDotChar = n := by
  obtain ⟨hch, hk0, -, -, -⟩ := namedKeywords_spec k cmd hk
  obtain ⟨ht, hnt⟩ := tokens_of_word_comma k n hch hk0
  rw [fb_name_of_eq, ht, if_neg hk0, hnt] at hn
  exact Option.some.inj hn

theorem attachedBy_of_success (c : DetectConsts) (a : Alloc) (d : DetectEngineCtx)
    (s : Signature) (k : List Char) (cmd : DetectFlowbitsCmd) (n : List Char)
    (hk : (k, cmd) ∈ namedKeywords)
    (h : (DetectFlowbitSetup c a d s (k ++ ',' :: n)).1 = 0) :
    attachedBy c a d s (k ++ ',' :: n) =
        { type := c.DETECT_FLOWBITS,
          ctx := some
            { idx := (VariableNameGetIdx d ((subjectOf n).takeWhile isDotChar)
                c.DETECT_FLOWBITS).1,
              cmd := cmd } } ∧
      ctxAfter c a d s (k ++ ',' :: n) =
        (VariableNameGetIdx d ((subjectOf n).takeWhile isDotChar) c.DETECT_FLOWBITS).2 := by
  unfold attachedBy ctxAfter
  rw [setup_named_of_success c a d s k cmd n hk h]
  exact ⟨lastSigMatch_SigMatchAppend _ _, rfl⟩

/-- Two successful compilations of the same name in one rule-set context, with any
calls of the compiler between them, attach instructions with the same index. -/
theorem same_name_same_idx (c : DetectConsts) (a1 a2 : Alloc) (d : DetectEngineCtx)
    (s1 s2 : Signature) (between : List SetupCall) (k1 k2 : List Char)
    (cmd1 cmd2 : DetectFlowbitsCmd) (n : List Char)
    (hk1 : (k1, cmd1) ∈ namedKeywords) (hk2 : (k2, cmd2) ∈ namedKeywords)
    (h1 : (DetectFlowbitSetup c a1 d s1 (k1 ++ ',' :: n)).1 = 0)
    (h2 : (DetectFlowbitSetup c a2
      (compileCalls c (ctxAfter c a1 d s1 (k1 ++ ',' :: n)) between) s2
      (k2 ++ ',' :: n)).1 = 0) :
    ∃ i,
      attachedBy c a1 d s1 (k1 ++ ',' :: n)
        = { type := c.DETECT_FLOWBITS, ctx := some { idx := i, cmd := cmd1 } } ∧
      attachedBy c a2 (compileCalls c (ctxAfter c a1 d s1 (k1 ++ ',' :: n)) between) s2
          (k2 ++ ',' :: n)
        = { type := c.DETECT_FLOWBITS, ctx := some { idx := i, cmd := cmd2 } } := by
  obtain ⟨hA1, hC1⟩ := attachedBy_of_success c a1 d s1 k1 cmd1 n hk1 h1
  obtain ⟨hA2, -⟩ := attachedBy_of_success c a2 _ s2 k2 cmd2 n hk2 h2
  refine ⟨_, hA1, ?_⟩
  rw [hA2]
  have hlook := nameIdx?_VariableNameGetIdx d ((subjectOf n).takeWhile isDotChar)
    c.DETECT_FLOWBITS
  rw [← hC1] at hlook
  have hlook2 := nameIdx?_of_extends _ _ _ _ _ (compileCalls_extends c between _) hlook
  rw [VariableNameGetIdx_of_nameIdx? _ _ _ _ hlook2]

/-- C16: within one rule-set context, names map to indices stably and injectively
across compilations: of two successful calls of `DetectFlowbitSetup`, each on one
of the five name-taking keywords and a name the tokenizer accepts, with any calls
of the compiler before and between them, the instructions attached hold the same
variable index if and only if the two names are the same. -/
theorem DetectFlowbitSetup_index_iff_name (c : DetectConsts) (before between : List SetupCall)
    (a1 a2 : Alloc) (s1 s2 : Signature) (k1 k2 : List Char) (cmd1 cmd2 : DetectFlowbitsCmd)
    (n1 n2 : List Char)
    (hk1 : (k1, cmd1) ∈ namedKeywords) (hk2 : (k2, cmd2) ∈ namedKeywords)
    (hn1 : fb_name_of (k1 ++ ',' :: n1) = some n1)
    (hn2 : fb_name_of (k2 ++ ',' :: n2) = some n2)
    (h1 : (DetectFlowbitSetup c a1 (compileCalls c DetectEngineCtxInit before) s1
      (k1 ++ ',' :: n1)).1 = 0)
    (h2 : (DetectFlowbitSetup c a2
      (compileCalls c
        (ctxAfter c a1 (compileCalls c DetectEngineCtxInit before) s1 (k1 ++ ',' :: n1))
        between) s2 (k2 ++ ',' :: n2)).1 = 0) :
    instrIdx (attachedBy c a1 (compileCalls c DetectEngineCtxInit before) s1
        (k1 ++ ',' :: n1))
      = instrIdx (attachedBy c a2
        (compileCalls c
          (ctxAfter c a1 (compileCalls c DetectEngineCtxInit before) s1 (k1 ++ ',' :: n1))
          between) s2 (k2 ++ ',' :: n2))
      ↔ n1 = n2 := by
  constructor
  · intro hidx
    obtain ⟨hA1, hC1⟩ := attachedBy_of_success c a1 _ s1 k1 cmd1 n1 hk1 h1
    obtain ⟨hA2, hC2⟩ := attachedBy_of_success c a2 _ s2 k2 cmd2 n2 hk2 h2
    rw [name_of_accepted k1 cmd1 n1 hk1 hn1] at hA1 hC1
    rw [name_of_accepted k2 cmd2 n2 hk2 hn2] at hA2 hC2
    rw [hA1, hA2] at hidx
    simp only [instrIdx] at hidx
    have hwf0 : NameTableWf (compileCalls c DetectEngineCtxInit before) :=
      NameTableWf_compileCalls c before _ NameTableWf_init
    have hwf1 := NameTableWf_ctxAfter c a1 _ s1 (k1 ++ ',' :: n1) hwf0
    have hwf2 := NameTableWf_compileCalls c between _ hwf1
    have hwf3 := NameTableWf_VariableNameGetIdx _ n2 c.DETECT_FLOWBITS hwf2
    have hl1 := nameIdx?_VariableNameGetIdx (compileCalls c DetectEngineCtxInit before) n1
      c.DETECT_FLOWBITS
    rw [← hC1] at hl1
    have hl2 := nameIdx?_of_extends _ _ _ _ _ (compileCalls_extends c between _) hl1
    have hl3 := nameIdx?_of_extends _ _ _ _ _
      (VariableNameGetIdx_extends _ n2 c.DETECT_FLOWBITS) hl2
    have hm2 := nameIdx?_VariableNameGetIdx
      (compileCalls c
        (ctxAfter c a1 (compileCalls c DetectEngineCtxInit before) s1 (k1 ++ ',' :: n1))
        between) n2 c.DETECT_FLOWBITS
    obtain ⟨e1, he1, hname1, -, hi1⟩ := nameIdx?_entry _ _ _ _ hl3
    obtain ⟨e2, he2, hname2, -, hi2⟩ := nameIdx?_entry _ _ _ _ hm2
    have := (hwf3.2 e1 he1 e2 he2 (by rw [hi1, hi2, hidx])).1
    rw [hname1, hname2] at this
    exact this
  · intro hn
    subst hn
    obtain ⟨i, hA1, hA2⟩ := same_name_same_idx c a1 a2 _ s1 s2 between k1 k2 cmd1 cmd2 n1
      hk1 hk2 h1 h2
    rw [hA1, hA2]
    rfl

/-- The runs of C16 in a fresh rule-set context: `isset,a` and, after `toggle,b`,
`set,a` attach the same index; `isset,a` and, after `toggle,b`, `unset,c` attach
different ones. -/
theorem DetectFlowbitSetup_index_iff_name_witness :
    instrIdx (attachedBy exampleConsts allocOk (compileCalls exampleConsts DetectEngineCtxInit [])
        exampleSig (kw_isset ++ ',' :: ['a']))
      = instrIdx (attachedBy exampleConsts allocOk
        (compileCalls exampleConsts
          (ctxAfter exampleConsts allocOk (compileCalls exampleConsts DetectEngineCtxInit [])
            exampleSig (kw_isset ++ ',' :: ['a']))
          [⟨allocOk, exampleSig, kw_toggle ++ ',' :: ['b']⟩])
        exampleSig (kw_set ++ ',' :: ['a'])) ∧
    instrIdx (attachedBy exampleConsts allocOk (compileCalls exampleConsts DetectEngineCtxInit [])
        exampleSig (kw_isset ++ ',' :: ['a']))
      ≠ instrIdx (attachedBy exampleConsts allocOk
        (compileCalls exampleConsts
          (ctxAfter exampleConsts allocOk (compileCalls exampleConsts DetectEngineCtxInit [])
            exampleSig (kw_isset ++ ',' :: ['a']))
          [⟨allocOk, exampleSig, kw_toggle ++ ',' :: ['b']⟩])
        exampleSig (kw_unset ++ ',' :: ['c'])) :=
  ⟨(DetectFlowbitSetup_index_iff_name exampleConsts []
      [⟨allocOk, exampleSig, kw_toggle ++ ',' :: ['b']⟩] allocOk allocOk exampleSig exampleSig
      kw_isset kw_set DETECT_FLOWBITS_CMD_ISSET DETECT_FLOWBITS_CMD_SET ['a'] ['a']
      (by decide) (by decide) (by decide) (by decide) (by decide) (by decide)).2 rfl,
    fun h => absurd
      ((DetectFlowbitSetup_index_iff_name exampleConsts []
        [⟨allocOk, exampleSig, kw_toggle ++ ',' :: ['b']⟩] allocOk allocOk exampleSig
        exampleSig kw_isset kw_unset DETECT_FLOWBITS_CMD_ISSET DETECT_FLOWBITS_CMD_UNSET
        ['a'] ['c'] (by decide) (by decide) (by decide) (by decide) (by decide)
        (by decide)).1 h)
      (by decide)⟩

/-- The end-to-end scenario on a Set and an IsSet instruction for the same index:
on a flow without the flag the IsSet instruction gives 0, and 1 after the Set
instruction has been evaluated on the flow. -/
theorem issetBeforeAfterSet_eq (c : DetectConsts) (mem : FlowMem) (p : Packet) (f i : Nat)
    (hp : p.flow = some f)
    (habs : ∀ gv ∈ (mem f).flowvar, ¬ (gv.type = c.DETECT_FLOWBITS ∧ gv.idx = i)) :
    issetBeforeAfterSet c mem p
        { type := c.DETECT_FLOWBITS, ctx := some { idx := i, cmd := DETECT_FLOWBITS_CMD_SET } }
        { type := c.DETECT_FLOWBITS, ctx := some { idx := i, cmd := DETECT_FLOWBITS_CMD_ISSET } }
      = (0, 1) := by
  have h0 := (FlowBitGet_eq_false_iff c (mem f) i).2 habs
  unfold issetBeforeAfterSet
  have hs := DetectFlowbitMatch_run c mem p
    { type := c.DETECT_FLOWBITS, ctx := some { idx := i, cmd := DETECT_FLOWBITS_CMD_SET } }
    f i DETECT_FLOWBITS_CMD_SET hp rfl
  have hi : ∀ mem0 : FlowMem, DetectFlowbitMatch c mem0 p
      { type := c.DETECT_FLOWBITS, ctx := some { idx := i, cmd := DETECT_FLOWBITS_CMD_ISSET } }
      = (FlowBitIsset c (mem0 f) i, mem0) := fun mem0 =>
    DetectFlowbitMatch_run c mem0 p _ f i DETECT_FLOWBITS_CMD_ISSET hp rfl
  simp only at hs
  rw [hs, hi, hi]
  simp [FlowBitIsset, h0, FlowMem.write_same, FlowBitGet_FlowBitSet]

/-- C17: end to end, for every name `n`: when `set,n` and `isset,n` are compiled
successfully in one rule-set context (in either order, with any calls of the
compiler between them), the isset instruction evaluated on a packet of a flow whose
store has no flowbits record for the name's index returns 0 (no match), and
evaluated on the same flow after the set instruction has been evaluated it returns
1 (match). -/
theorem DetectFlowbitSetup_Match_set_isset (c : DetectConsts) (a1 a2 : Alloc)
    (d : DetectEngineCtx) (s1 s2 : Signature) (between : List SetupCall) (n : List Char)
    (mem : FlowMem) (p : Packet) (f : Nat) (hp : p.flow = some f) :
    ((DetectFlowbitSetup c a1 d s1 (kw_set ++ ',' :: n)).1 = 0 →
      (DetectFlowbitSetup c a2
        (compileCalls c (ctxAfter c a1 d s1 (kw_set ++ ',' :: n)) between) s2
        (kw_isset ++ ',' :: n)).1 = 0 →
      (∀ gv ∈ (mem f).flowvar, ¬ (gv.type = c.DETECT_FLOWBITS ∧
        gv.idx = instrIdx (attachedBy c a2
          (compileCalls c (ctxAfter c a1 d s1 (kw_set ++ ',' :: n)) between) s2
          (kw_isset ++ ',' :: n)))) →
      issetBeforeAfterSet c mem p
          (attachedBy c a1 d s1 (kw_set ++ ',' :: n))
          (attachedBy c a2
            (compileCalls c (ctxAfter c a1 d s1 (kw_set ++ ',' :: n)) between) s2
            (kw_isset ++ ',' :: n))
        = (0, 1)) ∧
    ((DetectFlowbitSetup c a1 d s1 (kw_isset ++ ',' :: n)).1 = 0 →
      (DetectFlowbitSetup c a2
        (compileCalls c (ctxAfter c a1 d s1 (kw_isset ++ ',' :: n)) between) s2
        (kw_set ++ ',' :: n)).1 = 0 →
      (∀ gv ∈ (mem f).flowvar, ¬ (gv.type = c.DETECT_FLOWBITS ∧
        gv.idx = instrIdx (attachedBy c a1 d s1 (kw_isset ++ ',' :: n)))) →
      issetBeforeAfterSet c mem p
          (attachedBy c a2
            (compileCalls c (ctxAfter c a1 d s1 (kw_isset ++ ',' :: n)) between) s2
            (kw_set ++ ',' :: n))
          (attachedBy c a1 d s1 (kw_isset ++ ',' :: n))
        = (0, 1)) := by
  refine ⟨?_, ?_⟩
  · intro h1 h2 habs
    obtain ⟨i, hA1, hA2⟩ := same_name_same_idx c a1 a2 d s1 s2 between kw_set kw_isset
      DETECT_FLOWBITS_CMD_SET DETECT_FLOWBITS_CMD_ISSET n (by decide) (by decide) h1 h2
    rw [hA2] at habs
    rw [hA1, hA2]
    exact issetBeforeAfterSet_eq c mem p f i hp habs
  · intro h1 h2 habs
    obtain ⟨i, hA1, hA2⟩ := same_name_same_idx c a1 a2 d s1 s2 between kw_isset kw_set
      DETECT_FLOWBITS_CMD_ISSET DETECT_FLOWBITS_CMD_SET n (by decide) (by decide) h1 h2
    rw [hA1] at habs
    rw [hA1, hA2]
    exact issetBeforeAfterSet_eq c mem p f i hp habs

/-- The run of C17 in a fresh rule-set context on the name `alpha`, with
`toggle,beta` compiled between `set,alpha` and `isset,alpha`, and a flow whose
store holds the flag of another index and a record of another kind: the isset
instruction gives 0 before the set instruction and 1 after it. -/
theorem DetectFlowbitSetup_Match_set_isset_witness :
    issetBeforeAfterSet exampleConsts (fun _ => { flowvar := [⟨7, 2⟩, ⟨2, 1⟩] })
        { flow := some 0 }
        (attachedBy exampleConsts allocOk DetectEngineCtxInit exampleSig
          (kw_set ++ ',' :: ['a', 'l', 'p', 'h', 'a']))
        (attachedBy exampleConsts allocOk
          (compileCalls exampleConsts
            (ctxAfter exampleConsts allocOk DetectEngineCtxInit exampleSig
              (kw_set ++ ',' :: ['a', 'l', 'p', 'h', 'a']))
            [⟨allocOk, exampleSig, kw_toggle ++ ',' :: ['b', 'e', 't', 'a']⟩])
          exampleSig (kw_isset ++ ',' :: ['a', 'l', 'p', 'h', 'a']))
      = (0, 1) :=
  (DetectFlowbitSetup_Match_set_isset exampleConsts allocOk allocOk DetectEngineCtxInit
    exampleSig exampleSig [⟨allocOk, exampleSig, kw_toggle ++ ',' :: ['b', 'e', 't', 'a']⟩]
    ['a', 'l', 'p', 'h', 'a'] (fun _ => { flowvar := [⟨7, 2⟩, ⟨2, 1⟩] }) { flow := some 0 } 0
    rfl).1 (by decide) (by decide) (by decide)

/-! ## Leading characters and the tokenizing step -/

theorem fromCmd_skip (p t : List Char)
    (hp : ∀ ch ∈ p, isCmdChar ch = false ∧ ch ≠ Char.ofNat 0) :
    fromCmd (p ++ t) = fromCmd t := by
  unfold fromCmd
  rw [subjectOf_append p t (fun ch h => (hp ch h).2)]
  exact List.dropWhile_append_of_pos (fun ch h => by simp [(hp ch h).1])

theorem cmdToken_eq_nil_iff (rawstr : List Char) :
    cmdToken rawstr = [] ↔ ∀ ch ∈ subjectOf rawstr, isCmdChar ch = false := by
  unfold cmdToken fromCmd
  constructor
  · intro h
    have hnil : (subjectOf rawstr).dropWhile (fun ch => !isCmdChar ch) = [] := by
      cases hd : (subjectOf rawstr).dropWhile (fun ch => !isCmdChar ch) with
      | nil => rfl
      | cons x xs =>
        have hx : ¬ (fun ch => !isCmdChar ch) x = true := by
          have := List.head_dropWhile_not (fun ch => !isCmdChar ch) (subjectOf rawstr)
            (by rw [hd]; exact List.cons_ne_nil _ _)
          simpa [hd] using this
        rw [hd] at h
        have hx2 : isCmdChar x = true := by simpa using hx
        simp [List.takeWhile_cons, hx2] at h
    intro ch hch
    have := (List.dropWhile_eq_nil_iff.1 hnil) ch hch
    simpa using this
  · intro h
    have hnil : (subjectOf rawstr).dropWhile (fun ch => !isCmdChar ch) = [] :=
      List.dropWhile_eq_nil_iff.2 (fun ch hch => by simp [h ch hch])
    rw [hnil]
    rfl

theorem tokenizer_fails_iff (rawstr : List Char) :
    ((pcre_exec rawstr (strlen rawstr)).1 ≠ 2 ∧ (pcre_exec rawstr (strlen rawstr)).1 ≠ 3) ↔
      cmdToken rawstr = [] := by
  rw [pcre_exec_eq]
  by_cases hw : cmdToken rawstr = []
  · simp [hw, PCRE_ERROR_NOMATCH]
  · simp only [hw, if_false, iff_false]
    cases afterCmd rawstr with
    | nil => simp
    | cons ch tail =>
      by_cases hch : ch = ','
      · simp [hch]
      · simp [hch]

/-- C23: the tokenizing pattern is searched for, not anchored at the start of the
text, so leading characters that are not lowercase letters are ignored: for every
string `p` without a character in a-z (and, as part of a C string, without NUL) and
every option text `t`, `DetectFlowbitSetup` on `p` followed by `t` gives the outcome
it gives on `t` alone: the same return code, name table and rule, from the same
command word and the same name. And the tokenizing step fails (`pcre_exec` returns
neither 2 nor 3) exactly when the text has no lowercase letter at all. -/
theorem DetectFlowbitSetup_skips_leading (c : DetectConsts) (a : Alloc)
    (de_ctx : DetectEngineCtx) (s : Signature) (p t : List Char)
    (hp : ∀ ch ∈ p, isCmdChar ch = false ∧ ch ≠ Char.ofNat 0) :
    DetectFlowbitSetup c a de_ctx s (p ++ t) = DetectFlowbitSetup c a de_ctx s t ∧
      fb_cmd_str_of (p ++ t) = fb_cmd_str_of t ∧
      fb_name_of (p ++ t) = fb_name_of t ∧
      ∀ rawstr : List Char,
        ((pcre_exec rawstr (strlen rawstr)).1 ≠ 2 ∧ (pcre_exec rawstr (strlen rawstr)).1 ≠ 3) ↔
          ∀ ch ∈ rawstr.take (strlen rawstr), isCmdChar ch = false := by
  have hfrom := fromCmd_skip p t hp
  have hcmd : cmdToken (p ++ t) = cmdToken t := by
    unfold cmdToken
    rw [hfrom]
  have hafter : afterCmd (p ++ t) = afterCmd t := by
    unfold afterCmd
    rw [hfrom]
  have hname : nameToken (p ++ t) = nameToken t := by
    unfold nameToken
    rw [hafter]
  refine ⟨?_, ?_, ?_, ?_⟩
  · rw [DetectFlowbitSetup_eq, DetectFlowbitSetup_eq, hcmd, hname]
  · rw [fb_cmd_str_of_eq, fb_cmd_str_of_eq, hcmd]
  · rw [fb_name_of_eq, fb_name_of_eq, hcmd, hname]
  · intro rawstr
    rw [tokenizer_fails_iff, cmdToken_eq_nil_iff, take_strlen]

/-- The runs of C23 on `set,a` after the characters space, `1`, `;` and `S`: the
outcome is that of `set,a`, the attached Set instruction for the name `a`. -/
theorem DetectFlowbitSetup_skips_leading_witness :
    DetectFlowbitSetup exampleConsts allocOk DetectEngineCtxInit exampleSig
        ([' ', '1', ';', 'S'] ++ (kw_set ++ [',', 'a']))
      = DetectFlowbitSetup exampleConsts allocOk DetectEngineCtxInit exampleSig
        (kw_set ++ [',', 'a']) ∧
    DetectFlowbitSetup exampleConsts allocOk DetectEngineCtxInit exampleSig
        ([' ', '1', ';', 'S'] ++ (kw_set ++ [',', 'a']))
      = (0, { variable_names := [⟨['a'], 7, 1⟩], variable_names_idx := 1 },
          { flags := 3,
            match_list := [{ type := 1, ctx := none },
              { type := 7, ctx := some { idx := 1, cmd := DETECT_FLOWBITS_CMD_SET } }] }) :=
  ⟨(DetectFlowbitSetup_skips_leading exampleConsts allocOk DetectEngineCtxInit exampleSig
      [' ', '1', ';', 'S'] (kw_set ++ [',', 'a']) (by decide)).1,
    by decide⟩

/-- A successful call of the compiler, by cases: the `noalert` path, which only
sets the flag, or the path of a name-taking keyword with a name, which resolves the
name and appends one node. -/
theorem setup_success_cases (c : DetectConsts) (a : Alloc) (d : DetectEngineCtx)
    (s : Signature) (rawstr : List Char)
    (h : (DetectFlowbitSetup c a d s rawstr).1 = 0) :
    DetectFlowbitSetup c a d s rawstr
        = (0, d, { flags := s.flags ||| c.SIG_FLAG_NOALERT, match_list := s.match_list }) ∨
      ∃ cmd n, (cmdToken rawstr, cmd) ∈ namedKeywords ∧ cmdToken rawstr ≠ [] ∧
        nameToken rawstr = some n ∧
        DetectFlowbitSetup c a d s rawstr =
          (0, (VariableNameGetIdx d n c.DETECT_FLOWBITS).2,
            SigMatchAppend s
              { type := c.DETECT_FLOWBITS,
                ctx := some { idx := (VariableNameGetIdx d n c.DETECT_FLOWBITS).1,
                              cmd := cmd } }) := by
  rw [DetectFlowbitSetup_eq] at h ⊢
  by_cases h0 : cmdToken rawstr = []
  · simp [h0] at h
  rw [if_neg h0] at h ⊢
  by_cases h1 : a.get_substring_cmd = false
  · simp [h1] at h
  rw [if_neg h1] at h ⊢
  by_cases h2 : (nameToken rawstr).isSome ∧ a.get_substring_name = false
  · simp [h2] at h
  rw [if_neg h2] at h ⊢
  rcases fb_cmd_of_cases (cmdToken rawstr) with ⟨-, hcmd⟩ | ⟨cmd, hmem, hcmd⟩ | ⟨-, hcmd⟩
  · rw [hcmd] at h ⊢
    left
    cases hn : nameToken rawstr with
    | none => simp [setupSwitch]
    | some n => simp [hn, setupSwitch] at h
  · rw [hcmd] at h ⊢
    right
    obtain ⟨-, -, -, hnone, hsome⟩ := namedKeywords_spec _ _ hmem
    cases hn : nameToken rawstr with
    | none =>
      rw [hn] at h
      simp [hnone] at h
    | some n =>
      rw [hn] at h
      refine ⟨cmd, n, hmem, h0, rfl, ?_⟩
      simp only [hsome] at h ⊢
      unfold setupAttach at h ⊢
      cases hm : a.malloc <;> cases hs : a.SigMatchAlloc <;> simp [hm, hs] at h ⊢
  · rw [hcmd] at h
    simp at h

theorem namedKeywords_evaluated (w : List Char) (cmd : DetectFlowbitsCmd)
    (h : (w, cmd) ∈ namedKeywords) : cmd ∈ evaluatedCmds := by
  simp only [namedKeywords, List.mem_cons, Prod.mk.injEq, List.mem_nil_iff, or_false] at h
  rcases h with h | h | h | h | h <;> simp [evaluatedCmds, h.2]

theorem VariableNameGetIdx_pos (d : DetectEngineCtx) (n : List Char) (t : Nat)
    (h : NameTableWf d) : 1 ≤ (VariableNameGetIdx d n t).1 := by
  have hwf := NameTableWf_VariableNameGetIdx d n t h
  obtain ⟨e, he, -, -, hi⟩ := nameIdx?_entry _ _ _ _ (nameIdx?_VariableNameGetIdx d n t)
  rw [← hi]
  exact (hwf.1 e he).1

/-- C22: every instruction that a successful `DetectFlowbitSetup` attaches to a rule
is well-formed. In a rule-set context reached from the fresh one by calls of the
compiler, a call that returns 0 either leaves the match chain as it was (the
`noalert` path) or appends one node of type flowbits whose command is one of IsSet,
IsNotSet, Set, Unset, Toggle (so `DetectFlowbitMatch` does not take its default
branch on it) and whose index is the index `VariableNameGetIdx` gives for the name
of the option (so the compiler had a name and did not take its `idx = 0` branch);
that index is not 0, and it is 1 when the context is the fresh one. -/
theorem DetectFlowbitSetup_attaches_well_formed (c : DetectConsts) (a : Alloc)
    (before : List SetupCall) (s : Signature) (rawstr : List Char)
    (h : (DetectFlowbitSetup c a (compileCalls c DetectEngineCtxInit before) s rawstr).1 = 0) :
    (DetectFlowbitSetup c a (compileCalls c DetectEngineCtxInit before) s rawstr).2.2.match_list
        = s.match_list ∨
      ((DetectFlowbitSetup c a (compileCalls c DetectEngineCtxInit before) s
            rawstr).2.2.match_list
          = s.match_list ++
            [attachedBy c a (compileCalls c DetectEngineCtxInit before) s rawstr] ∧
        (attachedBy c a (compileCalls c DetectEngineCtxInit before) s rawstr).type
          = c.DETECT_FLOWBITS ∧
        instrCmd (attachedBy c a (compileCalls c DetectEngineCtxInit before) s rawstr)
          ∈ evaluatedCmds.map some ∧
        (fb_name_of rawstr).map
            (fun name => (VariableNameGetIdx (compileCalls c DetectEngineCtxInit before) name
              c.DETECT_FLOWBITS).1)
          = some (instrIdx
              (attachedBy c a (compileCalls c DetectEngineCtxInit before) s rawstr)) ∧
        instrIdx (attachedBy c a (compileCalls c DetectEngineCtxInit before) s rawstr) ≠ 0 ∧
        (before = [] →
          instrIdx (attachedBy c a (compileCalls c DetectEngineCtxInit before) s rawstr)
            = 1)) := by
  have hwf : NameTableWf (compileCalls c DetectEngineCtxInit before) :=
    NameTableWf_compileCalls c before _ NameTableWf_init
  rcases setup_success_cases c a _ s rawstr h with hrun | ⟨cmd, n, hmem, h0, hn, hrun⟩
  · left
    rw [hrun]
  · right
    have hatt : attachedBy c a (compileCalls c DetectEngineCtxInit before) s rawstr
        = { type := c.DETECT_FLOWBITS,
            ctx := some
              { idx := (VariableNameGetIdx (compileCalls c DetectEngineCtxInit before) n
                  c.DETECT_FLOWBITS).1,
                cmd := cmd } } := by
      unfold attachedBy
      rw [hrun]
      exact lastSigMatch_SigMatchAppend _ _
    have hpos := VariableNameGetIdx_pos (compileCalls c DetectEngineCtxInit before) n
      c.DETECT_FLOWBITS hwf
    rw [hatt, hrun]
    refine ⟨rfl, rfl, ?_, ?_, ?_, ?_⟩
    · simp only [instrCmd, List.mem_map]
      exact ⟨cmd, namedKeywords_evaluated _ _ hmem, rfl⟩
    · rw [fb_name_of_eq, if_neg h0, hn]
      rfl
    · simp only [instrIdx]
      omega
    · intro hb
      subst hb
      simp [instrIdx, compileCalls, VariableNameGetIdx, DetectEngineCtxInit]

/-- The runs of C22: `isset,fbt` in the fresh context, the rule of
`FlowBitsTestSig04`, attaches an IsSet instruction with index 1; `toggle,x` after
it attaches a Toggle instruction with index 2. -/
theorem DetectFlowbitSetup_attaches_well_formed_witness :
    (DetectFlowbitSetup exampleConsts allocOk (compileCalls exampleConsts DetectEngineCtxInit [])
          exampleSig (kw_isset ++ ',' :: ['f', 'b', 't'])).2.2.match_list
        = [{ type := 1, ctx := none },
            { type := 7, ctx := some { idx := 1, cmd := DETECT_FLOWBITS_CMD_ISSET } }] ∧
      (DetectFlowbitSetup exampleConsts allocOk
          (compileCalls exampleConsts DetectEngineCtxInit
            [⟨allocOk, exampleSig, kw_isset ++ ',' :: ['f', 'b', 't']⟩])
          exampleSig (kw_toggle ++ ',' :: ['x'])).2.2.match_list
        = [{ type := 1, ctx := none },
            { type := 7, ctx := some { idx := 2, cmd := DETECT_FLOWBITS_CMD_TOGGLE } }] :=
  ⟨(DetectFlowbitSetup_attaches_well_formed exampleConsts allocOk [] exampleSig
      (kw_isset ++ ',' :: ['f', 'b', 't']) (by decide)).elim
      (fun h => absurd h (by decide)) (fun h => h.1),
    (DetectFlowbitSetup_attaches_well_formed exampleConsts allocOk
      [⟨allocOk, exampleSig, kw_isset ++ ',' :: ['f', 'b', 't']⟩] exampleSig
      (kw_toggle ++ ',' :: ['x']) (by decide)).elim
      (fun h => absurd h (by decide)) (fun h => h.1)⟩

end DetectFlowbits
